import Mathlib

/-!
Formal model of the hybrid retrieval and rank-fusion engine of
`backend/routes/memory_routes.py` (functions `_calculate_keyword_score`,
`_hybrid_rank_results` with its inner `_add_rrf`, and the orchestration,
validation and response logic of the `search_memories` endpoint).

Modelling conventions:
* Python floats are modelled as exact rationals (`ℚ`); all the scores in
  the source are produced by `+`, `*`, `/`, `min`, `max` on small values,
  so the rational model follows the source formulas verbatim.
* Python strings are modelled as lists of characters (`Chars`), with
  structural re-implementations of the string methods the source calls
  (`str.split`, `str.count`, `str.index`, `in`, `str.lower`, `str.strip`).
* Python dicts used as records become structures with `Option` fields: a
  `none` field models both an absent key and an explicit `None` value
  (the source only reads these fields through `.get(key, default)` or
  `or ''`, which treat the two alike); `memory["id"]` on an absent key
  raises `KeyError`, modelled by `Except`.
* The accumulator dict `fused` (insertion-ordered in Python 3.7+) becomes
  an insertion-ordered association list.
-/

namespace MemFusion

abbrev Chars := List Char

/-- Python `str.lower()` : per-character lowering. -/
def toLowerChars (s : Chars) : Chars := s.map Char.toLower

/-- Auxiliary for `pySplitWs`: `acc` holds the (reversed) current word. -/
def pySplitWsAux : Chars → Chars → List Chars
  | acc, [] => if acc = [] then [] else [acc.reverse]
  | acc, c :: rest =>
      if c.isWhitespace then
        if acc = [] then pySplitWsAux [] rest
        else acc.reverse :: pySplitWsAux [] rest
      else pySplitWsAux (c :: acc) rest

/-- Python `str.split()` with no argument: split on runs of whitespace,
no empty words. -/
def pySplitWs (s : Chars) : List Chars := pySplitWsAux [] s

/-- Auxiliary for `pyCount`: `skip` is the number of still-consumed
characters of the previous match (non-overlapping scan). -/
def pyCountAux (pat : Chars) : Chars → Nat → Nat
  | [], _ => 0
  | _ :: rest, skip + 1 => pyCountAux pat rest skip
  | c :: rest, 0 =>
      if pat.isPrefixOf (c :: rest) then 1 + pyCountAux pat rest (pat.length - 1)
      else pyCountAux pat rest 0

/-- Python `s.count(pat)`: number of non-overlapping occurrences of `pat`
in `s`, scanned left to right (`"".count("")` is `len(s) + 1`). -/
def pyCount (s pat : Chars) : Nat :=
  if pat = [] then s.length + 1 else pyCountAux pat s 0

/-- Python `pat in s`: substring containment. -/
def pyIn (pat s : Chars) : Bool :=
  (List.range (s.length + 1)).any (fun i => pat.isPrefixOf (s.drop i))

/-- Python `s.index(pat)`: least index where `pat` occurs, `none` models
the raised `ValueError`. -/
def pyIndex (s pat : Chars) : Option Nat :=
  (List.range (s.length + 1)).find? (fun i => pat.isPrefixOf (s.drop i))

/-- Python `str.strip()`: drop whitespace from both ends. -/
def pyStrip (s : Chars) : Chars :=
  ((s.dropWhile Char.isWhitespace).reverse.dropWhile Char.isWhitespace).reverse

/-- Auxiliary for `splitComma`. -/
def splitCommaAux : Chars → Chars → List Chars
  | acc, [] => [acc.reverse]
  | acc, c :: rest =>
      if c = ',' then acc.reverse :: splitCommaAux [] rest
      else splitCommaAux (c :: acc) rest

/-- Python `s.split(",")`. -/
def splitComma (s : Chars) : List Chars := splitCommaAux [] s

/-- Decimal digits of a status code, for Python `str(...)` on ints. -/
def natToChars (n : Nat) : Chars := Nat.toDigits 10 n

/-- The body of the `for term in query_terms:` loop of
`_calculate_keyword_score`, statement by statement: exact matches
(`score += exact_matches * 2.0`), the word-level near matches
(`score += partial_matches * 0.5`), and the position bonus guarded by
`try: ... except ValueError: pass`. -/
def kwStep (text_lower : Chars) (words : List Chars) (score : ℚ) (term : Chars) : ℚ :=
  let exact_matches := pyCount text_lower term
  let score := score + (exact_matches : ℚ) * 2.0
  let near_matches := (words.filter (fun word => pyIn term word && word ≠ term)).length
  let score := score + (near_matches : ℚ) * 0.5
  match pyIndex text_lower term with
  | some first_position =>
      score + max 0 (1.0 - (first_position : ℚ) / (text_lower.length : ℚ))
  | none => score

/-- `_calculate_keyword_score(text, query_terms)` from
`backend/routes/memory_routes.py`.  `query_terms` (a Python `set`)
arrives as a duplicate-free list; the folded sum does not depend on its
order. -/
def _calculate_keyword_score (text : Chars) (query_terms : List Chars) : ℚ :=
  if text = [] ∨ query_terms = [] then 0.0
  else
    let text_lower := toLowerChars text
    let words := pySplitWs text_lower
    let total_words := words.length
    let score : ℚ := query_terms.foldl (kwStep text_lower words) 0.0
    min (score / max ((total_words : ℚ) / 100) 1) 10.0

/-! Character-level evaluation facts (proved by `rfl`) so that `simp` can
evaluate the string primitives on the concrete inputs used below. -/

@[simp] lemma toLower_sp : ' '.toLower = ' ' := rfl
@[simp] lemma toLower_a : 'a'.toLower = 'a' := rfl
@[simp] lemma toLower_b : 'b'.toLower = 'b' := rfl
@[simp] lemma toLower_c : 'c'.toLower = 'c' := rfl
@[simp] lemma toLower_d : 'd'.toLower = 'd' := rfl
@[simp] lemma toLower_e : 'e'.toLower = 'e' := rfl
@[simp] lemma toLower_g : 'g'.toLower = 'g' := rfl
@[simp] lemma toLower_h : 'h'.toLower = 'h' := rfl
@[simp] lemma toLower_i : 'i'.toLower = 'i' := rfl
@[simp] lemma toLower_k : 'k'.toLower = 'k' := rfl
@[simp] lemma toLower_m : 'm'.toLower = 'm' := rfl
@[simp] lemma toLower_n : 'n'.toLower = 'n' := rfl
@[simp] lemma toLower_o : 'o'.toLower = 'o' := rfl
@[simp] lemma toLower_q : 'q'.toLower = 'q' := rfl
@[simp] lemma toLower_r : 'r'.toLower = 'r' := rfl
@[simp] lemma toLower_s : 's'.toLower = 's' := rfl
@[simp] lemma toLower_t : 't'.toLower = 't' := rfl
@[simp] lemma toLower_v : 'v'.toLower = 'v' := rfl
@[simp] lemma toLower_w : 'w'.toLower = 'w' := rfl
@[simp] lemma toLower_x : 'x'.toLower = 'x' := rfl
@[simp] lemma toLower_y : 'y'.toLower = 'y' := rfl
@[simp] lemma toLower_z : 'z'.toLower = 'z' := rfl

@[simp] lemma isWs_sp : ' '.isWhitespace = true := rfl
@[simp] lemma isWs_a : 'a'.isWhitespace = false := rfl
@[simp] lemma isWs_b : 'b'.isWhitespace = false := rfl
@[simp] lemma isWs_c : 'c'.isWhitespace = false := rfl
@[simp] lemma isWs_d : 'd'.isWhitespace = false := rfl
@[simp] lemma isWs_e : 'e'.isWhitespace = false := rfl
@[simp] lemma isWs_g : 'g'.isWhitespace = false := rfl
@[simp] lemma isWs_h : 'h'.isWhitespace = false := rfl
@[simp] lemma isWs_i : 'i'.isWhitespace = false := rfl
@[simp] lemma isWs_k : 'k'.isWhitespace = false := rfl
@[simp] lemma isWs_m : 'm'.isWhitespace = false := rfl
@[simp] lemma isWs_n : 'n'.isWhitespace = false := rfl
@[simp] lemma isWs_o : 'o'.isWhitespace = false := rfl
@[simp] lemma isWs_q : 'q'.isWhitespace = false := rfl
@[simp] lemma isWs_r : 'r'.isWhitespace = false := rfl
@[simp] lemma isWs_s : 's'.isWhitespace = false := rfl
@[simp] lemma isWs_t : 't'.isWhitespace = false := rfl
@[simp] lemma isWs_v : 'v'.isWhitespace = false := rfl
@[simp] lemma isWs_w : 'w'.isWhitespace = false := rfl
@[simp] lemma isWs_x : 'x'.isWhitespace = false := rfl
@[simp] lemma isWs_y : 'y'.isWhitespace = false := rfl
@[simp] lemma isWs_z : 'z'.isWhitespace = false := rfl

/-! ## Data model -/

/-- A candidate memory record, i.e. the Python dict handed to fusion.
A `none` field models an absent key (or an explicit `None` value). -/
structure Memory where
  id : Option Nat := none
  type : Option Chars := none
  processed_text : Option Chars := none
  raw_text : Option Chars := none
  similarity_score : Option ℚ := none
  keyword_score : Option ℚ := none
  image_path : Option Chars := none
  filename : Option Chars := none
deriving DecidableEq

/-- The three candidate sources; `_add_rrf` receives them as the strings
`"keyword"`, `"semantic"`, `"image"` (see `sourceName`). -/
inductive Source where
  | keyword
  | semantic
  | image
deriving DecidableEq

def sourceName : Source → Chars
  | .keyword => "keyword".data
  | .semantic => "semantic".data
  | .image => "image".data

/-- One accumulator record of the `fused` dict built by `_add_rrf`:
the seeding `{**memory, "match_types": [], "keyword_score": 0.0,
"semantic_score": 0.0, "image_score": 0.0, "hybrid_score": 0.0}`.
`match_types` stores the contributing sources (the source appends the
strings given by `sourceName`). -/
structure Fused where
  id : Nat
  type : Option Chars
  processed_text : Option Chars
  raw_text : Option Chars
  similarity_score : Option ℚ
  image_path : Option Chars
  filename : Option Chars
  match_types : List Source
  keyword_score : ℚ
  semantic_score : ℚ
  image_score : ℚ
  hybrid_score : ℚ
deriving DecidableEq

/-- The `fused` dict: an insertion-ordered map from memory id to
accumulator (Python dicts preserve insertion order). -/
abbrev Fmap := List (Nat × Fused)

def lookupId (k : Nat) : Fmap → Option Fused
  | [] => none
  | (k', f) :: rest => if k' = k then some f else lookupId k rest

/-- In-place update of the entry at key `k` (Python `fused[memory_id][...] = ...`). -/
def updateEntry (fused : Fmap) (k : Nat) (g : Fused → Fused) : Fmap :=
  fused.map (fun p => if p.1 = k then (p.1, g p.2) else p)

/-- The seeding of a fresh accumulator in `_add_rrf`. -/
def initFused (memory_id : Nat) (memory : Memory) : Fused :=
  { id := memory_id
    type := memory.type
    processed_text := memory.processed_text
    raw_text := memory.raw_text
    similarity_score := memory.similarity_score
    image_path := memory.image_path
    filename := memory.filename
    match_types := []
    keyword_score := 0.0
    semantic_score := 0.0
    image_score := 0.0
    hybrid_score := 0.0 }

/-- `rrf_k = 60.0` in `_hybrid_rank_results`. -/
def rrf_k : ℚ := 60.0

/-- The mutations `_add_rrf` performs on the accumulator of `memory_id`:
`hybrid_score += 1.0 / (rrf_k + rank)`, `match_types.append(source)`,
the `score_field` branch (each source is always called with its own
score field), and for the image source the `extra_fields` overwrite of
`image_path` / `filename`. -/
def applySource (f : Fused) (memory : Memory) (rank : Nat) (source : Source) : Fused :=
  let f := { f with hybrid_score := f.hybrid_score + 1.0 / (rrf_k + (rank : ℚ))
                    match_types := f.match_types ++ [source] }
  match source with
  | .keyword =>
      { f with keyword_score := max f.keyword_score (memory.keyword_score.getD 0.0) }
  | .semantic =>
      { f with semantic_score := max f.semantic_score (memory.similarity_score.getD 0.0) }
  | .image =>
      { f with image_score := max f.image_score (memory.similarity_score.getD 0.0)
               image_path := memory.image_path
               filename := memory.filename }

/-- `_add_rrf(memory, rank, source, score_field=..., extra_fields=...)`.
`memory["id"]` on a record without an id raises `KeyError('id')`,
modelled by `.error "id"`; otherwise a missing accumulator is seeded and
the entry is updated. -/
def _add_rrf (fused : Fmap) (memory : Memory) (rank : Nat) (source : Source) :
    Except Chars Fmap :=
  match memory.id with
  | none => .error "id".data
  | some memory_id =>
      let fused :=
        if lookupId memory_id fused = none then fused ++ [(memory_id, initFused memory_id memory)]
        else fused
      .ok (updateEntry fused memory_id (fun f => applySource f memory rank source))

/-- One `for rank, memory in enumerate(..., start=1)` loop calling
`_add_rrf` on every entry. -/
def addLoop (source : Source) : Fmap → Nat → List Memory → Except Chars Fmap
  | fused, _, [] => .ok fused
  | fused, rank, memory :: rest =>
      match _add_rrf fused memory rank source with
      | .error e => .error e
      | .ok fused' => addLoop source fused' (rank + 1) rest

/-! ## Sorting (Python `list.sort` / `sorted` with `reverse=True`)

Python's sort is stable; sorting with `key=k, reverse=True` equals a
stable sort with the total preorder `k a ≥ k b`, which is exactly
`List.insertionSort` with that relation. -/

/-- Comparator of `scored.sort(key=lambda x: x[0], reverse=True)`. -/
def kwGe (a b : ℚ × Memory) : Prop := a.1 ≥ b.1

instance : DecidableRel kwGe := fun a b => inferInstanceAs (Decidable (a.1 ≥ b.1))
instance : IsTotal (ℚ × Memory) kwGe := ⟨fun a b => le_total b.1 a.1⟩
instance : IsTrans (ℚ × Memory) kwGe := ⟨fun _ _ _ h h' => le_trans h' h⟩

/-- Comparator of `sorted(results, key=lambda m: m.get("similarity_score", 0.0), reverse=True)`. -/
def simGe (a b : Memory) : Prop := a.similarity_score.getD 0.0 ≥ b.similarity_score.getD 0.0

instance : DecidableRel simGe :=
  fun a b => inferInstanceAs (Decidable (a.similarity_score.getD 0.0 ≥ b.similarity_score.getD 0.0))
instance : IsTotal Memory simGe := ⟨fun _ _ => le_total _ _⟩
instance : IsTrans Memory simGe := ⟨fun _ _ _ h h' => le_trans h' h⟩

/-- Comparator of `sorted(fused.values(), key=lambda x: x.get("hybrid_score", 0.0), reverse=True)`
(a `Fused` accumulator always carries its `hybrid_score` key). -/
def hybGe (a b : Fused) : Prop := a.hybrid_score ≥ b.hybrid_score

instance : DecidableRel hybGe := fun a b => inferInstanceAs (Decidable (a.hybrid_score ≥ b.hybrid_score))
instance : IsTotal Fused hybGe := ⟨fun a b => le_total b.hybrid_score a.hybrid_score⟩
instance : IsTrans Fused hybGe := ⟨fun _ _ _ h h' => le_trans h' h⟩

/-! ## `_hybrid_rank_results` -/

/-- `query_terms = set(query.lower().split())`: the set is modelled as a
duplicate-free list. -/
def queryTerms (query : Chars) : List Chars := (pySplitWs (toLowerChars query)).dedup

/-- The text blob `f"{processed_text} {raw_text}"` built in `_keyword_sorted`
(`memory.get('processed_text', '') or ''` and likewise for `raw_text`). -/
def textContent (memory : Memory) : Chars :=
  (memory.processed_text.getD []) ++ ' ' :: (memory.raw_text.getD [])

/-- `_keyword_sorted`: score each keyword candidate, then sort by score
descending; `_hybrid_rank_results` then rebinds each memory to
`{**memory, "keyword_score": kw_score}` before calling `_add_rrf`. -/
def keywordSortedM (keyword_results : List Memory) (query : Chars) : List Memory :=
  (List.insertionSort kwGe
      (keyword_results.map (fun memory =>
        (_calculate_keyword_score (textContent memory) (queryTerms query), memory)))).map
    (fun p => { p.2 with keyword_score := some p.1 })

/-- `semantic_sorted = sorted(semantic_results, key=..., reverse=True)`. -/
def semanticSorted (semantic_results : List Memory) : List Memory :=
  List.insertionSort simGe semantic_results

/-- `image_sorted = sorted(image_results, key=..., reverse=True)`. -/
def imageSorted (image_results : List Memory) : List Memory :=
  List.insertionSort simGe image_results

/-- The `fused` dict after the three `_add_rrf` loops of
`_hybrid_rank_results` (keyword first, then semantic, then image). -/
def fusedMap (keyword_results semantic_results image_results : List Memory)
    (query : Chars) : Except Chars Fmap :=
  match addLoop .keyword [] 1 (keywordSortedM keyword_results query) with
  | .error e => .error e
  | .ok f1 =>
      match addLoop .semantic f1 1 (semanticSorted semantic_results) with
      | .error e => .error e
      | .ok f2 => addLoop .image f2 1 (imageSorted image_results)

/-- `_hybrid_rank_results(keyword_results, semantic_results, image_results, query, limit)`:
fuse, sort `fused.values()` by `hybrid_score` descending, truncate to
`limit`. -/
def _hybrid_rank_results (keyword_results semantic_results image_results : List Memory)
    (query : Chars) (limit : Nat) : Except Chars (List Fused) :=
  match fusedMap keyword_results semantic_results image_results query with
  | .error e => .error e
  | .ok fused => .ok ((List.insertionSort hybGe (fused.map Prod.snd)).take limit)

/-! ## The `search_memories` endpoint

The endpoint body is one big `try:` block: (1)-(3) conditional candidate
retrieval, (4) type-filter validation + filtering, (5) fusion, building
the response dict; `except Exception as e: raise HTTPException(500,
f"Hybrid search failed: {e}")` wraps *every* exception raised inside —
including the `HTTPException(400)` of step (4) and a `KeyError` from
fusion.  The external sources are modelled by an environment giving the
lists each source would return; presentation-only step (6) (image URLs,
prints) is omitted as it does not alter the claim-relevant fields. -/

/-- A raised Python exception. -/
inductive PyError where
  | httpExc (status : Nat) (detail : Chars)
  | keyError (key : Chars)
deriving DecidableEq

/-- Python `str(e)`: Starlette's `HTTPException.__str__` is
`f"{status_code}: {detail}"`; `str(KeyError('id'))` is `"'id'"`. -/
def pyStrOfError : PyError → Chars
  | .httpExc status detail => natToChars status ++ ':' :: ' ' :: detail
  | .keyError key => '\'' :: key ++ ['\'']

/-- What the three candidate sources would return for this query/user. -/
structure SearchEnv where
  keywordRes : List Memory := []
  semanticRes : List Memory := []
  imageRes : List Memory := []

/-- Which candidate retrievals steps (1)-(3) execute, in order:
`if search_type in ["hybrid", "keyword"]` etc. -/
def retrievalPlan (search_type : Chars) : List Source :=
  (if search_type = "hybrid".data ∨ search_type = "keyword".data then [Source.keyword] else []) ++
  (if search_type = "hybrid".data ∨ search_type = "semantic".data then [Source.semantic] else []) ++
  (if search_type = "hybrid".data ∨ search_type = "image".data then [Source.image] else [])

/-- `allowed_types = {"text", "image", "voice"}`. -/
def allowed_types : List Chars := ["text".data, "image".data, "voice".data]

/-- Step (4) validation: the selected type set (a duplicate-free list),
`none` when no filter is given, `.error` for the raised
`HTTPException(status_code=400, detail=...)`. -/
def parseTypeFilter (memory_type : Option Chars) (memory_types : Option Chars) :
    Except Chars (Option (List Chars)) :=
  match memory_type with
  | some mt =>
      let mt := toLowerChars (pyStrip mt)
      if mt ∈ allowed_types then .ok (some [mt])
      else .error "Invalid memory_type".data
  | none =>
      match memory_types with
      | some mts =>
          let parsed := ((splitComma mts).map pyStrip).filter (fun t => t ≠ []) |>.map toLowerChars
          if parsed = [] then .error "Invalid memory_types".data
          else if parsed.any (fun t => t ∉ allowed_types) then .error "Invalid memory_types".data
          else .ok (some parsed.dedup)
      | none => .ok none

/-- `[m for m in results if (m or {}).get("type") in selected_types]`. -/
def filterByTypes (selected : List Chars) (results : List Memory) : List Memory :=
  results.filter (fun m =>
    match m.type with
    | some t => t ∈ selected
    | none => False)

/-- The filter block guarded by `if selected_types is not None`. -/
def applyTypeFilter (selected : Option (List Chars)) (results : List Memory) : List Memory :=
  match selected with
  | some s => filterByTypes s results
  | none => results

/-- Step (1): `if search_type in ["hybrid", "keyword"]: keyword_results = ...`
(initialised to `[]` otherwise). -/
def retrievedKeyword (search_type : Chars) (env : SearchEnv) : List Memory :=
  if search_type = "hybrid".data ∨ search_type = "keyword".data then env.keywordRes else []

/-- Step (2): semantic retrieval, analogous. -/
def retrievedSemantic (search_type : Chars) (env : SearchEnv) : List Memory :=
  if search_type = "hybrid".data ∨ search_type = "semantic".data then env.semanticRes else []

/-- Step (3): image retrieval, analogous. -/
def retrievedImage (search_type : Chars) (env : SearchEnv) : List Memory :=
  if search_type = "hybrid".data ∨ search_type = "image".data then env.imageRes else []

/-- The claim-relevant part of the endpoint's response dict. -/
structure SearchResponse where
  memories : List Fused
  total_found : Nat
  keyword_matches : Nat
  semantic_matches : Nat
  image_matches : Nat
deriving DecidableEq

/-- The body of the `try:` block of `search_memories` (steps (1)-(5) and
the response dict).  Note the order: retrieval happens *before* the type
filter is validated. -/
def search_body (query search_type : Chars) (memory_type memory_types : Option Chars)
    (limit : Nat) (env : SearchEnv) : Except PyError SearchResponse :=
  let keyword_results := retrievedKeyword search_type env
  let semantic_results := retrievedSemantic search_type env
  let image_results := retrievedImage search_type env
  match parseTypeFilter memory_type memory_types with
  | .error detail => .error (.httpExc 400 detail)
  | .ok selected_types =>
      let keyword_results := applyTypeFilter selected_types keyword_results
      let semantic_results := applyTypeFilter selected_types semantic_results
      let image_results := applyTypeFilter selected_types image_results
      match _hybrid_rank_results keyword_results semantic_results image_results query limit with
      | .error key => .error (.keyError key)
      | .ok final_results =>
          .ok { memories := final_results
                total_found := final_results.length
                keyword_matches := keyword_results.length
                semantic_matches := semantic_results.length
                image_matches := image_results.length }

/-- The whole endpoint: the candidate retrievals that executed (always
exactly the plan — they precede validation inside the `try:`), and the
outcome after the catch-all `except Exception` re-raises everything as
`HTTPException(500, f"Hybrid search failed: {e}")`. -/
def search_memories (query search_type : Chars) (memory_type memory_types : Option Chars)
    (limit : Nat) (env : SearchEnv) : List Source × Except PyError SearchResponse :=
  (retrievalPlan search_type,
   match search_body query search_type memory_type memory_types limit env with
   | .ok resp => .ok resp
   | .error e => .error (.httpExc 500 ("Hybrid search failed: ".data ++ pyStrOfError e)))

/-- Status code of an outcome, if it is an error. -/
def statusOf : Except PyError SearchResponse → Option Nat
  | .error (.httpExc status _) => some status
  | .error (.keyError _) => none
  | .ok _ => none

/-- 400-class (client-error) statuses. -/
def isClientError (status : Nat) : Prop := 400 ≤ status ∧ status < 500

instance (status : Nat) : Decidable (isClientError status) :=
  inferInstanceAs (Decidable (400 ≤ status ∧ status < 500))

instance {ε α : Type} [DecidableEq ε] [DecidableEq α] : DecidableEq (Except ε α) := fun a b =>
  match a, b with
  | .ok x, .ok y =>
      if h : x = y then .isTrue (h ▸ rfl) else .isFalse (fun hc => h (Except.ok.inj hc))
  | .error e, .error e' =>
      if h : e = e' then .isTrue (h ▸ rfl) else .isFalse (fun hc => h (Except.error.inj hc))
  | .ok _, .error _ => .isFalse (fun hc => by cases hc)
  | .error _, .ok _ => .isFalse (fun hc => by cases hc)

/-! ## Specification-side quantities

These formalise the vocabulary of the claims: 1-based ranks of the
occurrences of an id in a (sorted) source list, the reciprocal-rank
contribution `1.0 / (60.0 + r)`, per-occurrence similarity scores, the
number of distinct ids, and the keyword scorer's closed-form term sum. -/

/-- The (rank, record) pairs of the occurrences of id `k` in a list whose
head has rank `r`. -/
def occs : List Memory → Nat → Nat → List (Nat × Memory)
  | [], _, _ => []
  | m :: rest, r, k =>
      (if m.id = some k then [(r, m)] else []) ++ occs rest (r + 1) k

/-- 1-based ranks at which id `k` occurs in list `l`. -/
def ranksOf (l : List Memory) (k : Nat) : List Nat := (occs l 1 k).map Prod.fst

/-- The reciprocal-rank-fusion contribution of one occurrence at rank `r`. -/
def rrfTerm (r : Nat) : ℚ := 1 / (60 + (r : ℚ))

/-- Sum of the contributions of a list of ranks. -/
def rrfTotal (rs : List Nat) : ℚ := (rs.map rrfTerm).sum

/-- The `get("similarity_score", 0.0)` values of the occurrences of id
`k` in list `l`, in list order. -/
def simsOf (l : List Memory) (k : Nat) : List ℚ :=
  (occs l 1 k).map (fun p => p.2.similarity_score.getD 0.0)

/-- The `get("keyword_score", 0.0)` values of the occurrences of id `k`
in list `l`, in list order. -/
def kwScoresOf (l : List Memory) (k : Nat) : List ℚ :=
  (occs l 1 k).map (fun p => p.2.keyword_score.getD 0.0)

/-- Number of distinct ids carried by the records of `l` (records
without an id contribute none). -/
def distinctIdCount (l : List Memory) : Nat :=
  ((l.filterMap Memory.id).dedup).length

/-- The contribution of one query term to the keyword score, exactly as
the claim states it: `2.0 ×` exact substring count, plus `0.5 ×` count
of words containing the term but not equal to it, plus the position
bonus when the term occurs at all. -/
def termScore (text_lower : Chars) (words : List Chars) (term : Chars) : ℚ :=
  2 * (pyCount text_lower term : ℚ)
    + (1 / 2) * ((words.filter (fun word => pyIn term word && word ≠ term)).length : ℚ)
    + (match pyIndex text_lower term with
       | some i => max 0 (1 - (i : ℚ) / (text_lower.length : ℚ))
       | none => 0)

/-- The claim's closed form for `_calculate_keyword_score`:
`min(S / max(total_words / 100, 1), 10.0)` with `S` the sum of the term
contributions, and `0.0` for an empty blob or empty term set. -/
def keywordScoreSpec (text : Chars) (query_terms : List Chars) : ℚ :=
  if text = [] ∨ query_terms = [] then 0
  else
    min (((query_terms.map (termScore (toLowerChars text) (pySplitWs (toLowerChars text)))).sum)
          / max (((pySplitWs (toLowerChars text)).length : ℚ) / 100) 1) 10

/-! ## The keyword scorer: loop = term sum (claim C3) -/

lemma kwStep_eq_add (tl : Chars) (ws : List Chars) (a : ℚ) (t : Chars) :
    kwStep tl ws a t = a + termScore tl ws t := by
  unfold kwStep termScore
  cases h : pyIndex tl t <;> simp only [h] <;> norm_num <;> ring

lemma foldl_kwStep (tl : Chars) (ws : List Chars) :
    ∀ (l : List Chars) (a : ℚ), l.foldl (kwStep tl ws) a = a + (l.map (termScore tl ws)).sum
  | [], a => by simp
  | t :: l, a => by
      rw [List.foldl_cons, foldl_kwStep tl ws l, kwStep_eq_add]
      simp [add_assoc]

lemma termScore_nonneg (tl : Chars) (ws : List Chars) (t : Chars) :
    0 ≤ termScore tl ws t := by
  unfold termScore
  have h2 : (0 : ℚ) ≤ 2 * (pyCount tl t : ℚ) := by positivity
  have h5 : (0 : ℚ) ≤ (1 / 2) * ((ws.filter (fun word => pyIn t word && word ≠ t)).length : ℚ) := by
    positivity
  cases h : pyIndex tl t
  · simpa [h] using add_nonneg (add_nonneg h2 h5) le_rfl
  · exact add_nonneg (add_nonneg h2 h5) (le_max_left 0 _)

lemma calculate_keyword_score_eq_spec (text : Chars) (query_terms : List Chars) :
    _calculate_keyword_score text query_terms = keywordScoreSpec text query_terms := by
  unfold _calculate_keyword_score keywordScoreSpec
  by_cases h : text = [] ∨ query_terms = []
  · norm_num [h]
  · simp only [h, if_false]
    rw [foldl_kwStep]
    norm_num

lemma keywordScoreSpec_nonneg (text : Chars) (query_terms : List Chars) :
    0 ≤ keywordScoreSpec text query_terms := by
  unfold keywordScoreSpec
  split
  · exact le_rfl
  · refine le_min ?_ (by norm_num)
    refine div_nonneg ?_ (le_trans (by norm_num) (le_max_right _ 1))
    exact List.sum_nonneg (by
      intro x hx
      obtain ⟨t, _, rfl⟩ := List.mem_map.mp hx
      exact termScore_nonneg _ _ _)

lemma keywordScoreSpec_le_ten (text : Chars) (query_terms : List Chars) :
    keywordScoreSpec text query_terms ≤ 10 := by
  unfold keywordScoreSpec
  split
  · norm_num
  · exact min_le_right _ _

/-! ## Association-list infrastructure for the `fused` dict -/

def keysOf (fused : Fmap) : List Nat := fused.map Prod.fst

lemma lookupId_append_single (k k' : Nat) (v : Fused) :
    ∀ l : Fmap, lookupId k (l ++ [(k', v)]) =
      (match lookupId k l with
       | some f => some f
       | none => if k' = k then some v else none)
  | [] => by simp [lookupId]
  | (a, f) :: l => by
      by_cases ha : a = k
      · simp [lookupId, ha]
      · simpa [lookupId, ha] using lookupId_append_single k k' v l

lemma updateEntry_cons (a : Nat) (f : Fused) (l : Fmap) (k' : Nat) (g : Fused → Fused) :
    updateEntry ((a, f) :: l) k' g =
      (if a = k' then (a, g f) else (a, f)) :: updateEntry l k' g := by
  simp only [updateEntry, List.map_cons]

lemma lookupId_updateEntry (k k' : Nat) (g : Fused → Fused) :
    ∀ l : Fmap, lookupId k (updateEntry l k' g) =
      if k' = k then (lookupId k l).map g else lookupId k l
  | [] => by by_cases h : k' = k <;> simp [lookupId, updateEntry, h]
  | (a, f) :: l => by
      have ih := lookupId_updateEntry k k' g l
      rw [updateEntry_cons]
      by_cases ha' : a = k'
      · rw [if_pos ha']
        by_cases hk : k' = k
        · have hak : a = k := ha'.trans hk
          simp [lookupId, hak, hk]
        · have hak : a ≠ k := fun hc => hk (ha'.symm.trans hc)
          rw [if_neg hk]
          simp [lookupId, hak, ih, if_neg hk]
      · rw [if_neg ha']
        by_cases hak : a = k
        · have hk : k' ≠ k := fun hc => ha' (hak.trans hc.symm)
          simp [lookupId, hak, hk]
        · simp [lookupId, hak, ih]

lemma keysOf_updateEntry (l : Fmap) (k : Nat) (g : Fused → Fused) :
    keysOf (updateEntry l k g) = keysOf l := by
  unfold keysOf updateEntry
  rw [List.map_map]
  apply List.map_congr_left
  intro p _
  by_cases h : p.1 = k <;> simp [h]

lemma keysOf_append (l₁ l₂ : Fmap) : keysOf (l₁ ++ l₂) = keysOf l₁ ++ keysOf l₂ := by
  simp [keysOf]

lemma lookupId_eq_none_iff (k : Nat) :
    ∀ l : Fmap, lookupId k l = none ↔ k ∉ keysOf l
  | [] => by simp [lookupId, keysOf]
  | (a, f) :: l => by
      by_cases ha : a = k
      · simp [lookupId, keysOf, ha]
      · simp [lookupId, keysOf, ha, lookupId_eq_none_iff k l, Ne.symm ha]

lemma lookupId_eq_of_mem (k : Nat) (f : Fused) :
    ∀ l : Fmap, (keysOf l).Nodup → (k, f) ∈ l → lookupId k l = some f
  | [], _, hm => by cases hm
  | (a, g) :: l, hnd, hm => by
      rcases List.mem_cons.mp hm with h | h
      · cases h
        simp [lookupId]
      · have ha : a ≠ k := by
          intro h'
          subst h'
          exact (List.nodup_cons.mp hnd).1 (by
            simpa [keysOf] using List.mem_map_of_mem Prod.fst h)
        simp [lookupId, ha]
        exact lookupId_eq_of_mem k f l (List.nodup_cons.mp hnd).2 h

/-! ## Evolution of one accumulator entry under the `_add_rrf` loops -/

/-- The net effect on the accumulator of id `k` of processing, in order,
the occurrences `os` of `k` (with their ranks) from one source list:
each occurrence seeds the accumulator if it is still absent and then
applies `applySource`. -/
def applyOccs (source : Source) (k : Nat) (start : Option Fused)
    (os : List (Nat × Memory)) : Option Fused :=
  os.foldl (fun cur rm => some (applySource (cur.getD (initFused k rm.2)) rm.2 rm.1 source)) start

lemma applyOccs_nil (source : Source) (k : Nat) (start : Option Fused) :
    applyOccs source k start [] = start := rfl

lemma applyOccs_cons (source : Source) (k : Nat) (start : Option Fused)
    (r : Nat) (m : Memory) (os : List (Nat × Memory)) :
    applyOccs source k start ((r, m) :: os) =
      applyOccs source k (some (applySource (start.getD (initFused k m)) m r source)) os := rfl

lemma addLoop_lookup (source : Source) :
    ∀ (l : List Memory) (fused : Fmap) (r : Nat) (fused' : Fmap),
      addLoop source fused r l = .ok fused' →
      ∀ k, lookupId k fused' = applyOccs source k (lookupId k fused) (occs l r k)
  | [], fused, r, fused', h, k => by
      simp [addLoop] at h
      simp [h, occs, applyOccs_nil]
  | m :: rest, fused, r, fused', h, k => by
      unfold addLoop at h
      unfold _add_rrf at h
      cases hid : m.id with
      | none => simp [hid] at h
      | some mid =>
          simp only [hid] at h
          set ensured :=
            (if lookupId mid fused = none then fused ++ [(mid, initFused mid m)] else fused) with hens
          set f1 := updateEntry ensured mid (fun f => applySource f m r source) with hf1
          have hrec : addLoop source f1 (r + 1) rest = .ok fused' := h
          have ih := addLoop_lookup source rest f1 (r + 1) fused' hrec k
          have hmid_ens : lookupId mid ensured =
              some ((lookupId mid fused).getD (initFused mid m)) := by
            rw [hens]
            cases hl : lookupId mid fused with
            | none =>
                rw [if_pos rfl, lookupId_append_single]
                simp [hl]
            | some f =>
                rw [if_neg (by simp [hl])]
                simp [hl]
          by_cases hk : mid = k
          · subst hk
            rw [ih]
            have : lookupId mid f1 =
                some (applySource ((lookupId mid fused).getD (initFused mid m)) m r source) := by
              rw [hf1, lookupId_updateEntry, if_pos rfl, hmid_ens]
              rfl
            rw [this]
            simp [occs, hid, applyOccs_cons]
          · have hkeep : lookupId k f1 = lookupId k fused := by
              rw [hf1, lookupId_updateEntry, if_neg hk, hens]
              cases hl : lookupId mid fused with
              | none =>
                  rw [if_pos rfl, lookupId_append_single]
                  cases hkl : lookupId k fused <;> simp [hkl, hk]
              | some f => rw [if_neg (by simp [hl])]
            rw [ih, hkeep]
            have : m.id ≠ some k := by simp [hid, hk]
            simp [occs, this]

/-! ## Totality and failure of the loops -/

lemma addLoop_ok_of_ids (source : Source) :
    ∀ (l : List Memory) (fused : Fmap) (r : Nat), (∀ m ∈ l, m.id ≠ none) →
      ∃ fused', addLoop source fused r l = .ok fused'
  | [], fused, r, _ => ⟨fused, rfl⟩
  | m :: rest, fused, r, h => by
      cases hid : m.id with
      | none => exact absurd hid (h m (List.mem_cons_self m rest))
      | some mid =>
          obtain ⟨fused', h'⟩ := addLoop_ok_of_ids source rest
            (updateEntry
              (if lookupId mid fused = none then fused ++ [(mid, initFused mid m)] else fused)
              mid (fun f => applySource f m r source))
            (r + 1) (fun m hm => h m (List.mem_cons_of_mem _ hm))
          exact ⟨fused', by simp [addLoop, _add_rrf, hid, h']⟩

lemma addLoop_error_of_missing (source : Source) :
    ∀ (l : List Memory) (fused : Fmap) (r : Nat), (∃ m ∈ l, m.id = none) →
      addLoop source fused r l = .error "id".data
  | [], _, _, h => by simp at h
  | m :: rest, fused, r, h => by
      cases hid : m.id with
      | none => simp [addLoop, _add_rrf, hid]
      | some mid =>
          have hex : ∃ m' ∈ rest, m'.id = none := by
            rcases h with ⟨m', hm', hid'⟩
            rcases List.mem_cons.mp hm' with h' | h'
            · exact absurd hid (by simp [h' ▸ hid'])
            · exact ⟨m', h', hid'⟩
          simp [addLoop, _add_rrf, hid, addLoop_error_of_missing source rest _ (r + 1) hex]

/-! ## Per-field readings of an accumulator entry -/

def hybridOf (o : Option Fused) : ℚ := (o.map Fused.hybrid_score).getD 0

def matchTypesOf (o : Option Fused) : List Source := (o.map Fused.match_types).getD []

def kwScoreOf (o : Option Fused) : ℚ := (o.map Fused.keyword_score).getD 0

def semScoreOf (o : Option Fused) : ℚ := (o.map Fused.semantic_score).getD 0

def imgScoreOf (o : Option Fused) : ℚ := (o.map Fused.image_score).getD 0

lemma applySource_hybrid (f : Fused) (m : Memory) (r : Nat) (source : Source) :
    (applySource f m r source).hybrid_score = f.hybrid_score + rrfTerm r := by
  have : (1.0 : ℚ) / (rrf_k + (r : ℚ)) = rrfTerm r := by norm_num [rrf_k, rrfTerm]
  cases source <;> simp [applySource, this]

lemma applySource_matchTypes (f : Fused) (m : Memory) (r : Nat) (source : Source) :
    (applySource f m r source).match_types = f.match_types ++ [source] := by
  cases source <;> simp [applySource]

lemma applySource_id (f : Fused) (m : Memory) (r : Nat) (source : Source) :
    (applySource f m r source).id = f.id := by
  cases source <;> simp [applySource]

lemma applyOccs_hybrid (source : Source) (k : Nat) :
    ∀ (os : List (Nat × Memory)) (start : Option Fused),
      hybridOf (applyOccs source k start os) = hybridOf start + rrfTotal (os.map Prod.fst)
  | [], start => by simp [applyOccs_nil, rrfTotal]
  | (r, m) :: os, start => by
      rw [applyOccs_cons, applyOccs_hybrid source k os]
      have hstep : hybridOf (some (applySource (start.getD (initFused k m)) m r source)) =
          hybridOf start + rrfTerm r := by
        cases start with
        | none => norm_num [hybridOf, applySource_hybrid, initFused]
        | some f => simp [hybridOf, applySource_hybrid]
      rw [hstep]
      simp [rrfTotal]
      ring

lemma applyOccs_matchTypes (source : Source) (k : Nat) :
    ∀ (os : List (Nat × Memory)) (start : Option Fused),
      matchTypesOf (applyOccs source k start os) =
        matchTypesOf start ++ List.replicate os.length source
  | [], start => by simp [applyOccs_nil]
  | (r, m) :: os, start => by
      rw [applyOccs_cons, applyOccs_matchTypes source k os]
      have hstep : matchTypesOf (some (applySource (start.getD (initFused k m)) m r source)) =
          matchTypesOf start ++ [source] := by
        cases start with
        | none => simp [matchTypesOf, applySource_matchTypes, initFused]
        | some f => simp [matchTypesOf, applySource_matchTypes]
      rw [hstep]
      simp [List.replicate_succ]

lemma applyOccs_isSome (source : Source) (k : Nat) :
    ∀ (os : List (Nat × Memory)) (start : Option Fused),
      (applyOccs source k start os).isSome = (start.isSome || !os.isEmpty)
  | [], start => by simp [applyOccs_nil]
  | (r, m) :: os, start => by
      rw [applyOccs_cons, applyOccs_isSome source k os]
      simp

lemma applyOccs_kwScore_keyword (k : Nat) :
    ∀ (os : List (Nat × Memory)) (start : Option Fused),
      kwScoreOf (applyOccs .keyword k start os) =
        (os.map (fun p => p.2.keyword_score.getD 0.0)).foldl max (kwScoreOf start)
  | [], start => by simp [applyOccs_nil]
  | (r, m) :: os, start => by
      rw [applyOccs_cons, applyOccs_kwScore_keyword k os]
      have hstep : kwScoreOf (some (applySource (start.getD (initFused k m)) m r .keyword)) =
          max (kwScoreOf start) (m.keyword_score.getD 0.0) := by
        cases start with
        | none =>
            show max (initFused k m).keyword_score _ = _
            norm_num [initFused, kwScoreOf]
        | some f => simp [kwScoreOf, applySource]
      simp [hstep]

lemma applyOccs_semScore_semantic (k : Nat) :
    ∀ (os : List (Nat × Memory)) (start : Option Fused),
      semScoreOf (applyOccs .semantic k start os) =
        (os.map (fun p => p.2.similarity_score.getD 0.0)).foldl max (semScoreOf start)
  | [], start => by simp [applyOccs_nil]
  | (r, m) :: os, start => by
      rw [applyOccs_cons, applyOccs_semScore_semantic k os]
      have hstep : semScoreOf (some (applySource (start.getD (initFused k m)) m r .semantic)) =
          max (semScoreOf start) (m.similarity_score.getD 0.0) := by
        cases start with
        | none =>
            show max (initFused k m).semantic_score _ = _
            norm_num [initFused, semScoreOf]
        | some f => simp [semScoreOf, applySource]
      simp [hstep]

lemma applyOccs_imgScore_image (k : Nat) :
    ∀ (os : List (Nat × Memory)) (start : Option Fused),
      imgScoreOf (applyOccs .image k start os) =
        (os.map (fun p => p.2.similarity_score.getD 0.0)).foldl max (imgScoreOf start)
  | [], start => by simp [applyOccs_nil]
  | (r, m) :: os, start => by
      rw [applyOccs_cons, applyOccs_imgScore_image k os]
      have hstep : imgScoreOf (some (applySource (start.getD (initFused k m)) m r .image)) =
          max (imgScoreOf start) (m.similarity_score.getD 0.0) := by
        cases start with
        | none =>
            show max (initFused k m).image_score _ = _
            norm_num [initFused, imgScoreOf]
        | some f => simp [imgScoreOf, applySource]
      simp [hstep]

lemma applyOccs_kwScore_other (source : Source) (k : Nat) (hs : source ≠ .keyword) :
    ∀ (os : List (Nat × Memory)) (start : Option Fused),
      kwScoreOf (applyOccs source k start os) = kwScoreOf start
  | [], start => by simp [applyOccs_nil]
  | (r, m) :: os, start => by
      rw [applyOccs_cons, applyOccs_kwScore_other source k hs os]
      cases start with
      | none =>
          cases source with
          | keyword => exact absurd rfl hs
          | semantic => norm_num [kwScoreOf, applySource, initFused]
          | image => norm_num [kwScoreOf, applySource, initFused]
      | some f =>
          cases source with
          | keyword => exact absurd rfl hs
          | semantic => simp [kwScoreOf, applySource]
          | image => simp [kwScoreOf, applySource]

lemma applyOccs_semScore_other (source : Source) (k : Nat) (hs : source ≠ .semantic) :
    ∀ (os : List (Nat × Memory)) (start : Option Fused),
      semScoreOf (applyOccs source k start os) = semScoreOf start
  | [], start => by simp [applyOccs_nil]
  | (r, m) :: os, start => by
      rw [applyOccs_cons, applyOccs_semScore_other source k hs os]
      cases start with
      | none =>
          cases source with
          | semantic => exact absurd rfl hs
          | keyword => norm_num [semScoreOf, applySource, initFused]
          | image => norm_num [semScoreOf, applySource, initFused]
      | some f =>
          cases source with
          | semantic => exact absurd rfl hs
          | keyword => simp [semScoreOf, applySource]
          | image => simp [semScoreOf, applySource]

lemma applyOccs_imgScore_other (source : Source) (k : Nat) (hs : source ≠ .image) :
    ∀ (os : List (Nat × Memory)) (start : Option Fused),
      imgScoreOf (applyOccs source k start os) = imgScoreOf start
  | [], start => by simp [applyOccs_nil]
  | (r, m) :: os, start => by
      rw [applyOccs_cons, applyOccs_imgScore_other source k hs os]
      cases start with
      | none =>
          cases source with
          | image => exact absurd rfl hs
          | keyword => norm_num [imgScoreOf, applySource, initFused]
          | semantic => norm_num [imgScoreOf, applySource, initFused]
      | some f =>
          cases source with
          | image => exact absurd rfl hs
          | keyword => simp [imgScoreOf, applySource]
          | semantic => simp [imgScoreOf, applySource]

/-! ## Evolution of the key set -/

/-- Appending a key to the dict if absent (`if memory_id not in fused`). -/
def insertKey (ks : List Nat) (k : Nat) : List Nat := if k ∈ ks then ks else ks ++ [k]

lemma mem_insertKey (ks : List Nat) (a k : Nat) :
    a ∈ insertKey ks k ↔ a ∈ ks ∨ a = k := by
  unfold insertKey
  by_cases h : k ∈ ks
  · simp only [if_pos h]
    constructor
    · exact Or.inl
    · rintro (ha | rfl)
      · exact ha
      · exact h
  · simp [if_neg h]

lemma nodup_insertKey (ks : List Nat) (k : Nat) (h : ks.Nodup) : (insertKey ks k).Nodup := by
  unfold insertKey
  by_cases hk : k ∈ ks
  · simpa [hk]
  · rw [if_neg hk]
    refine List.Nodup.append h (List.nodup_singleton k) ?_
    intro a ha hb
    rw [List.mem_singleton] at hb
    exact hk (hb ▸ ha)

lemma mem_foldl_insertKey :
    ∀ (ids : List Nat) (ks : List Nat) (a : Nat),
      a ∈ ids.foldl insertKey ks ↔ a ∈ ks ∨ a ∈ ids
  | [], ks, a => by simp
  | i :: ids, ks, a => by
      rw [List.foldl_cons, mem_foldl_insertKey ids (insertKey ks i) a, mem_insertKey]
      constructor
      · rintro ((h | rfl) | h)
        · exact Or.inl h
        · exact Or.inr (List.mem_cons_self _ _)
        · exact Or.inr (List.mem_cons_of_mem _ h)
      · rintro (h | h)
        · exact Or.inl (Or.inl h)
        · rcases List.mem_cons.mp h with rfl | h'
          · exact Or.inl (Or.inr rfl)
          · exact Or.inr h'

lemma nodup_foldl_insertKey :
    ∀ (ids : List Nat) (ks : List Nat), ks.Nodup → (ids.foldl insertKey ks).Nodup
  | [], ks, h => h
  | i :: ids, ks, h => by
      rw [List.foldl_cons]
      exact nodup_foldl_insertKey ids (insertKey ks i) (nodup_insertKey ks i h)

lemma addLoop_keys (source : Source) :
    ∀ (l : List Memory) (fused : Fmap) (r : Nat) (fused' : Fmap),
      addLoop source fused r l = .ok fused' →
      keysOf fused' = (l.filterMap Memory.id).foldl insertKey (keysOf fused)
  | [], fused, r, fused', h => by
      simp [addLoop] at h
      simp [h]
  | m :: rest, fused, r, fused', h => by
      unfold addLoop _add_rrf at h
      cases hid : m.id with
      | none => simp [hid] at h
      | some mid =>
          simp only [hid] at h
          have ih := addLoop_keys source rest _ (r + 1) fused' h
          rw [ih]
          have hkeys : keysOf (updateEntry
              (if lookupId mid fused = none then fused ++ [(mid, initFused mid m)] else fused)
              mid (fun f => applySource f m r source)) = insertKey (keysOf fused) mid := by
            rw [keysOf_updateEntry]
            unfold insertKey
            cases hl : lookupId mid fused with
            | none =>
                rw [if_pos rfl, if_neg ((lookupId_eq_none_iff mid fused).mp hl), keysOf_append]
                rfl
            | some f =>
                have hmem : mid ∈ keysOf fused := by
                  by_contra hc
                  rw [(lookupId_eq_none_iff mid fused).mpr hc] at hl
                  cases hl
                rw [if_neg (by simp), if_pos hmem]
          rw [hkeys]
          simp [hid]

/-! ## Every accumulator stores its own id -/

def EntriesOk (fused : Fmap) : Prop := ∀ p ∈ fused, (p : Nat × Fused).2.id = p.1

lemma addLoop_entriesOk (source : Source) :
    ∀ (l : List Memory) (fused : Fmap) (r : Nat) (fused' : Fmap),
      addLoop source fused r l = .ok fused' → EntriesOk fused → EntriesOk fused'
  | [], fused, r, fused', h, hok => by
      simp [addLoop] at h
      exact h ▸ hok
  | m :: rest, fused, r, fused', h, hok => by
      unfold addLoop _add_rrf at h
      cases hid : m.id with
      | none => simp [hid] at h
      | some mid =>
          simp only [hid] at h
          refine addLoop_entriesOk source rest _ (r + 1) fused' h ?_
          intro p hp
          rcases List.mem_map.mp hp with ⟨p₀, hp₀, hpe⟩
          have hsrc : p₀ ∈ fused ∨ p₀ = (mid, initFused mid m) := by
            by_cases hc : lookupId mid fused = none
            · have hp₀' := hp₀
              rw [if_pos hc] at hp₀'
              rcases List.mem_append.mp hp₀' with hin | hin
              · exact Or.inl hin
              · exact Or.inr (by simpa using hin)
            · have hp₀' := hp₀
              rw [if_neg hc] at hp₀'
              exact Or.inl hp₀'
          have hp₀ok : p₀.2.id = p₀.1 := by
            rcases hsrc with hin | rfl
            · exact hok p₀ hin
            · rfl
          by_cases hc : p₀.1 = mid
          · simp only [← hpe, if_pos hc]
            simpa [applySource_id] using hp₀ok
          · simp only [← hpe, if_neg hc]
            exact hp₀ok

/-! ## Ids across the per-source sorts -/

/-- Every record of the list carries an id. -/
def IdsPresent (l : List Memory) : Prop := ∀ m ∈ l, m.id ≠ none

lemma filterMap_id_keywordSortedM (kw : List Memory) (q : Chars) :
    ((keywordSortedM kw q).filterMap Memory.id).Perm (kw.filterMap Memory.id) := by
  unfold keywordSortedM
  rw [List.filterMap_map]
  have h1 := (List.perm_insertionSort kwGe
      (kw.map (fun memory =>
        (_calculate_keyword_score (textContent memory) (queryTerms q), memory)))).filterMap
    (fun p => ({ p.2 with keyword_score := some p.1 } : Memory).id)
  refine h1.trans ?_
  rw [List.filterMap_map]
  exact List.Perm.refl _

lemma filterMap_id_semanticSorted (sem : List Memory) :
    ((semanticSorted sem).filterMap Memory.id).Perm (sem.filterMap Memory.id) :=
  (List.perm_insertionSort simGe sem).filterMap Memory.id

lemma filterMap_id_imageSorted (img : List Memory) :
    ((imageSorted img).filterMap Memory.id).Perm (img.filterMap Memory.id) :=
  (List.perm_insertionSort simGe img).filterMap Memory.id

lemma mem_keywordSortedM_of_mem (kw : List Memory) (q : Chars) (m : Memory) (hm : m ∈ kw) :
    ∃ m' ∈ keywordSortedM kw q, m'.id = m.id := by
  unfold keywordSortedM
  refine ⟨(fun p : ℚ × Memory => { p.2 with keyword_score := some p.1 })
      (_calculate_keyword_score (textContent m) (queryTerms q), m), ?_, rfl⟩
  apply List.mem_map_of_mem
  apply (List.perm_insertionSort kwGe _).mem_iff.mpr
  exact List.mem_map_of_mem _ hm

lemma mem_of_mem_keywordSortedM (kw : List Memory) (q : Chars) (m' : Memory)
    (hm : m' ∈ keywordSortedM kw q) : ∃ m ∈ kw, m'.id = m.id := by
  unfold keywordSortedM at hm
  rcases List.mem_map.mp hm with ⟨p, hp, rfl⟩
  have hp' : p ∈ kw.map (fun memory =>
      (_calculate_keyword_score (textContent memory) (queryTerms q), memory)) :=
    (List.perm_insertionSort kwGe _).mem_iff.mp hp
  rcases List.mem_map.mp hp' with ⟨m, hm', rfl⟩
  exact ⟨m, hm', rfl⟩

lemma idsPresent_keywordSortedM (kw : List Memory) (q : Chars) (h : IdsPresent kw) :
    IdsPresent (keywordSortedM kw q) := by
  intro m' hm'
  rcases mem_of_mem_keywordSortedM kw q m' hm' with ⟨m, hm, hid⟩
  rw [hid]
  exact h m hm

lemma idsPresent_semanticSorted (sem : List Memory) (h : IdsPresent sem) :
    IdsPresent (semanticSorted sem) := by
  intro m' hm'
  exact h m' ((List.perm_insertionSort simGe sem).mem_iff.mp hm')

lemma idsPresent_imageSorted (img : List Memory) (h : IdsPresent img) :
    IdsPresent (imageSorted img) := by
  intro m' hm'
  exact h m' ((List.perm_insertionSort simGe img).mem_iff.mp hm')

/-! ## The fused map after all three loops -/

lemma fusedMap_eq_ok (kw sem img : List Memory) (q : Chars) (f3 : Fmap)
    (h : fusedMap kw sem img q = .ok f3) :
    ∃ f1 f2, addLoop .keyword [] 1 (keywordSortedM kw q) = .ok f1 ∧
      addLoop .semantic f1 1 (semanticSorted sem) = .ok f2 ∧
      addLoop .image f2 1 (imageSorted img) = .ok f3 := by
  unfold fusedMap at h
  split at h
  · cases h
  · rename_i f1 h1
    split at h
    · cases h
    · rename_i f2 h2
      exact ⟨f1, f2, h1, h2, h⟩

lemma fusedMap_eq_of_loops (kw sem img : List Memory) (q : Chars) (f1 f2 f3 : Fmap)
    (h1 : addLoop .keyword [] 1 (keywordSortedM kw q) = .ok f1)
    (h2 : addLoop .semantic f1 1 (semanticSorted sem) = .ok f2)
    (h3 : addLoop .image f2 1 (imageSorted img) = .ok f3) :
    fusedMap kw sem img q = .ok f3 := by
  unfold fusedMap
  rw [h1]
  dsimp only
  rw [h2]
  dsimp only
  exact h3

lemma fusedMap_lookup (kw sem img : List Memory) (q : Chars) (f3 : Fmap)
    (h : fusedMap kw sem img q = .ok f3) (k : Nat) :
    lookupId k f3 =
      applyOccs .image k
        (applyOccs .semantic k
          (applyOccs .keyword k none (occs (keywordSortedM kw q) 1 k))
          (occs (semanticSorted sem) 1 k))
        (occs (imageSorted img) 1 k) := by
  obtain ⟨f1, f2, h1, h2, h3⟩ := fusedMap_eq_ok kw sem img q f3 h
  rw [addLoop_lookup .image _ _ _ _ h3 k, addLoop_lookup .semantic _ _ _ _ h2 k,
    addLoop_lookup .keyword _ _ _ _ h1 k]
  rfl

lemma fusedMap_keys (kw sem img : List Memory) (q : Chars) (f3 : Fmap)
    (h : fusedMap kw sem img q = .ok f3) :
    keysOf f3 =
      (((keywordSortedM kw q ++ semanticSorted sem) ++ imageSorted img).filterMap
        Memory.id).foldl insertKey [] := by
  obtain ⟨f1, f2, h1, h2, h3⟩ := fusedMap_eq_ok kw sem img q f3 h
  rw [addLoop_keys .image _ _ _ _ h3, addLoop_keys .semantic _ _ _ _ h2,
    addLoop_keys .keyword _ _ _ _ h1]
  simp [keysOf, List.filterMap_append, List.foldl_append]

lemma fusedMap_nodupKeys (kw sem img : List Memory) (q : Chars) (f3 : Fmap)
    (h : fusedMap kw sem img q = .ok f3) : (keysOf f3).Nodup := by
  rw [fusedMap_keys kw sem img q f3 h]
  exact nodup_foldl_insertKey _ [] List.nodup_nil

lemma fusedMap_entriesOk (kw sem img : List Memory) (q : Chars) (f3 : Fmap)
    (h : fusedMap kw sem img q = .ok f3) : EntriesOk f3 := by
  obtain ⟨f1, f2, h1, h2, h3⟩ := fusedMap_eq_ok kw sem img q f3 h
  refine addLoop_entriesOk .image _ _ _ _ h3 ?_
  refine addLoop_entriesOk .semantic _ _ _ _ h2 ?_
  refine addLoop_entriesOk .keyword _ _ _ _ h1 ?_
  intro p hp
  cases hp

lemma fusedMap_ok_of_ids (kw sem img : List Memory) (q : Chars)
    (hkw : IdsPresent kw) (hsem : IdsPresent sem) (himg : IdsPresent img) :
    ∃ f3, fusedMap kw sem img q = .ok f3 := by
  obtain ⟨f1, h1⟩ := addLoop_ok_of_ids .keyword (keywordSortedM kw q) [] 1
    (idsPresent_keywordSortedM kw q hkw)
  obtain ⟨f2, h2⟩ := addLoop_ok_of_ids .semantic (semanticSorted sem) f1 1
    (idsPresent_semanticSorted sem hsem)
  obtain ⟨f3, h3⟩ := addLoop_ok_of_ids .image (imageSorted img) f2 1
    (idsPresent_imageSorted img himg)
  exact ⟨f3, fusedMap_eq_of_loops kw sem img q f1 f2 f3 h1 h2 h3⟩

lemma fusedMap_error_of_missing (kw sem img : List Memory) (q : Chars)
    (h : ∃ m ∈ kw ++ sem ++ img, m.id = none) :
    fusedMap kw sem img q = .error "id".data := by
  by_cases hkw : ∃ m ∈ kw, m.id = none
  · rcases hkw with ⟨m, hm, hid⟩
    rcases mem_keywordSortedM_of_mem kw q m hm with ⟨m', hm', hid'⟩
    unfold fusedMap
    rw [addLoop_error_of_missing .keyword _ [] 1 ⟨m', hm', hid'.trans hid⟩]
  · have hkw' : IdsPresent kw := fun m hm hid => hkw ⟨m, hm, hid⟩
    obtain ⟨f1, h1⟩ := addLoop_ok_of_ids .keyword (keywordSortedM kw q) [] 1
      (idsPresent_keywordSortedM kw q hkw')
    by_cases hsem : ∃ m ∈ sem, m.id = none
    · rcases hsem with ⟨m, hm, hid⟩
      have hmem : m ∈ semanticSorted sem := (List.perm_insertionSort simGe sem).mem_iff.mpr hm
      unfold fusedMap
      rw [h1]
      dsimp only
      rw [addLoop_error_of_missing .semantic (semanticSorted sem) f1 1 ⟨m, hmem, hid⟩]
    · have hsem' : IdsPresent sem := fun m hm hid => hsem ⟨m, hm, hid⟩
      obtain ⟨f2, h2⟩ := addLoop_ok_of_ids .semantic (semanticSorted sem) f1 1
        (idsPresent_semanticSorted sem hsem')
      have himg : ∃ m ∈ img, m.id = none := by
        rcases h with ⟨m, hm, hid⟩
        rcases List.mem_append.mp hm with hm' | hm'
        · rcases List.mem_append.mp hm' with hm'' | hm''
          · exact absurd ⟨m, hm'', hid⟩ hkw
          · exact absurd ⟨m, hm'', hid⟩ hsem
        · exact ⟨m, hm', hid⟩
      rcases himg with ⟨m, hm, hid⟩
      have hmem : m ∈ imageSorted img := (List.perm_insertionSort simGe img).mem_iff.mpr hm
      unfold fusedMap
      rw [h1]
      dsimp only
      rw [h2]
      dsimp only
      rw [addLoop_error_of_missing .image (imageSorted img) f2 1 ⟨m, hmem, hid⟩]

/-! ## Characterising the output of `_hybrid_rank_results` -/

lemma hybrid_eq_take (kw sem img : List Memory) (q : Chars) (lim : Nat) (f3 : Fmap)
    (hf : fusedMap kw sem img q = .ok f3) :
    _hybrid_rank_results kw sem img q lim =
      .ok ((List.insertionSort hybGe (f3.map Prod.snd)).take lim) := by
  unfold _hybrid_rank_results
  rw [hf]

lemma hybrid_ok_inv (kw sem img : List Memory) (q : Chars) (lim : Nat) (out : List Fused)
    (h : _hybrid_rank_results kw sem img q lim = .ok out) :
    ∃ f3, fusedMap kw sem img q = .ok f3 ∧
      out = (List.insertionSort hybGe (f3.map Prod.snd)).take lim := by
  unfold _hybrid_rank_results at h
  split at h
  · cases h
  · rename_i f3 hf
    exact ⟨f3, hf, (Except.ok.inj h).symm⟩

lemma mem_out_lookup (kw sem img : List Memory) (q : Chars) (lim : Nat)
    (out : List Fused) (f3 : Fmap) (m : Fused)
    (hf : fusedMap kw sem img q = .ok f3)
    (hout : out = (List.insertionSort hybGe (f3.map Prod.snd)).take lim)
    (hm : m ∈ out) : lookupId m.id f3 = some m := by
  have hm1 : m ∈ List.insertionSort hybGe (f3.map Prod.snd) :=
    List.take_subset _ _ (hout ▸ hm)
  have hm2 : m ∈ f3.map Prod.snd := (List.perm_insertionSort hybGe _).subset hm1
  rcases List.mem_map.mp hm2 with ⟨p, hp, rfl⟩
  have hidp : p.2.id = p.1 := fusedMap_entriesOk kw sem img q f3 hf p hp
  have hmem : (p.2.id, p.2) ∈ f3 := by
    rw [hidp]
    exact hp
  exact lookupId_eq_of_mem _ _ f3 (fusedMap_nodupKeys kw sem img q f3 hf) hmem

lemma lookup_hybrid (kw sem img : List Memory) (q : Chars) (f3 : Fmap)
    (hf : fusedMap kw sem img q = .ok f3) (k : Nat) :
    hybridOf (lookupId k f3) =
      rrfTotal (ranksOf (keywordSortedM kw q) k) +
        rrfTotal (ranksOf (semanticSorted sem) k) +
        rrfTotal (ranksOf (imageSorted img) k) := by
  rw [fusedMap_lookup kw sem img q f3 hf k, applyOccs_hybrid, applyOccs_hybrid,
    applyOccs_hybrid]
  simp [hybridOf, ranksOf]

lemma lookup_matchTypes (kw sem img : List Memory) (q : Chars) (f3 : Fmap)
    (hf : fusedMap kw sem img q = .ok f3) (k : Nat) :
    matchTypesOf (lookupId k f3) =
      List.replicate (ranksOf (keywordSortedM kw q) k).length Source.keyword ++
        List.replicate (ranksOf (semanticSorted sem) k).length Source.semantic ++
        List.replicate (ranksOf (imageSorted img) k).length Source.image := by
  rw [fusedMap_lookup kw sem img q f3 hf k, applyOccs_matchTypes, applyOccs_matchTypes,
    applyOccs_matchTypes]
  simp [matchTypesOf, ranksOf, List.append_assoc]

lemma lookup_kwScore (kw sem img : List Memory) (q : Chars) (f3 : Fmap)
    (hf : fusedMap kw sem img q = .ok f3) (k : Nat) :
    kwScoreOf (lookupId k f3) = (kwScoresOf (keywordSortedM kw q) k).foldl max 0 := by
  rw [fusedMap_lookup kw sem img q f3 hf k,
    applyOccs_kwScore_other .image k (by simp),
    applyOccs_kwScore_other .semantic k (by simp),
    applyOccs_kwScore_keyword]
  simp [kwScoreOf, kwScoresOf]

lemma lookup_semScore (kw sem img : List Memory) (q : Chars) (f3 : Fmap)
    (hf : fusedMap kw sem img q = .ok f3) (k : Nat) :
    semScoreOf (lookupId k f3) = (simsOf (semanticSorted sem) k).foldl max 0 := by
  rw [fusedMap_lookup kw sem img q f3 hf k,
    applyOccs_semScore_other .image k (by simp),
    applyOccs_semScore_semantic,
    applyOccs_semScore_other .keyword k (by simp)]
  simp [semScoreOf, simsOf]

lemma lookup_imgScore (kw sem img : List Memory) (q : Chars) (f3 : Fmap)
    (hf : fusedMap kw sem img q = .ok f3) (k : Nat) :
    imgScoreOf (lookupId k f3) = (simsOf (imageSorted img) k).foldl max 0 := by
  rw [fusedMap_lookup kw sem img q f3 hf k,
    applyOccs_imgScore_image,
    applyOccs_imgScore_other .semantic k (by simp),
    applyOccs_imgScore_other .keyword k (by simp)]
  simp [imgScoreOf, simsOf]

lemma lookup_isSome (kw sem img : List Memory) (q : Chars) (f3 : Fmap)
    (hf : fusedMap kw sem img q = .ok f3) (k : Nat) (hs : (lookupId k f3).isSome) :
    ranksOf (keywordSortedM kw q) k ≠ [] ∨ ranksOf (semanticSorted sem) k ≠ [] ∨
      ranksOf (imageSorted img) k ≠ [] := by
  rw [fusedMap_lookup kw sem img q f3 hf k, applyOccs_isSome, applyOccs_isSome,
    applyOccs_isSome] at hs
  by_contra hcon
  push_neg at hcon
  have h1 : occs (keywordSortedM kw q) 1 k = [] := by
    have h := hcon.1
    unfold ranksOf at h
    exact List.map_eq_nil_iff.mp h
  have h2 : occs (semanticSorted sem) 1 k = [] := by
    have h := hcon.2.1
    unfold ranksOf at h
    exact List.map_eq_nil_iff.mp h
  have h3 : occs (imageSorted img) 1 k = [] := by
    have h := hcon.2.2
    unfold ranksOf at h
    exact List.map_eq_nil_iff.mp h
  rw [h1, h2, h3] at hs
  simp at hs

/-! ## Positivity of the RRF contributions -/

lemma rrfTerm_pos (r : Nat) : 0 < rrfTerm r := by
  unfold rrfTerm
  positivity

lemma rrfTotal_nonneg (rs : List Nat) : 0 ≤ rrfTotal rs := by
  unfold rrfTotal
  refine List.sum_nonneg ?_
  intro x hx
  rcases List.mem_map.mp hx with ⟨r, _, rfl⟩
  exact le_of_lt (rrfTerm_pos r)

lemma rrfTotal_pos (rs : List Nat) (h : rs ≠ []) : 0 < rrfTotal rs := by
  cases rs with
  | nil => exact absurd rfl h
  | cons r rs =>
      unfold rrfTotal
      rw [List.map_cons, List.sum_cons]
      exact add_pos_of_pos_of_nonneg (rrfTerm_pos r) (rrfTotal_nonneg rs)

/-! ## Length and order of the output list -/

lemma foldl_insertKey_length_eq_dedup (ids : List Nat) :
    (ids.foldl insertKey []).length = ids.dedup.length := by
  have h1 : (ids.foldl insertKey []).Nodup := nodup_foldl_insertKey ids [] List.nodup_nil
  have h2 : (ids.foldl insertKey []).toFinset = ids.toFinset := by
    ext a
    simp [List.mem_toFinset, mem_foldl_insertKey]
  calc (ids.foldl insertKey []).length = (ids.foldl insertKey []).toFinset.card :=
        (List.toFinset_card_of_nodup h1).symm
    _ = ids.toFinset.card := by rw [h2]
    _ = ids.dedup.length := List.card_toFinset ids

lemma dedup_length_of_perm (l1 l2 : List Nat) (h : l1.Perm l2) :
    l1.dedup.length = l2.dedup.length := by
  rw [← List.card_toFinset, ← List.card_toFinset]
  congr 1
  ext a
  simp [List.mem_toFinset, h.mem_iff]

lemma f3_length (kw sem img : List Memory) (q : Chars) (f3 : Fmap)
    (hf : fusedMap kw sem img q = .ok f3) :
    f3.length = distinctIdCount (kw ++ sem ++ img) := by
  have hk : f3.length = (keysOf f3).length := by simp [keysOf]
  rw [hk, fusedMap_keys kw sem img q f3 hf, foldl_insertKey_length_eq_dedup]
  unfold distinctIdCount
  apply dedup_length_of_perm
  rw [List.filterMap_append, List.filterMap_append, List.filterMap_append,
    List.filterMap_append]
  exact ((filterMap_id_keywordSortedM kw q).append (filterMap_id_semanticSorted sem)).append
    (filterMap_id_imageSorted img)

lemma out_length (kw sem img : List Memory) (q : Chars) (lim : Nat)
    (out : List Fused) (f3 : Fmap)
    (hf : fusedMap kw sem img q = .ok f3)
    (hout : out = (List.insertionSort hybGe (f3.map Prod.snd)).take lim) :
    out.length = min lim (distinctIdCount (kw ++ sem ++ img)) := by
  rw [hout, List.length_take, (List.perm_insertionSort hybGe _).length_eq, List.length_map,
    f3_length kw sem img q f3 hf]

lemma out_pairwise (lim : Nat) (out : List Fused) (f3 : Fmap)
    (hout : out = (List.insertionSort hybGe (f3.map Prod.snd)).take lim) :
    out.Pairwise hybGe := by
  rw [hout]
  exact List.Pairwise.sublist (List.take_sublist lim _) (List.sorted_insertionSort hybGe _)

lemma out_top (lim : Nat) (out : List Fused) (f3 : Fmap)
    (hout : out = (List.insertionSort hybGe (f3.map Prod.snd)).take lim) :
    ∀ x ∈ out, ∀ y ∈ f3.map Prod.snd, y ∉ out → y.hybrid_score ≤ x.hybrid_score := by
  intro x hx y hy hyn
  set S := List.insertionSort hybGe (f3.map Prod.snd) with hS
  have hsorted : List.Pairwise hybGe (S.take lim ++ S.drop lim) := by
    rw [List.take_append_drop]
    exact List.sorted_insertionSort hybGe _
  have hyS : y ∈ S := (List.perm_insertionSort hybGe _).symm.subset hy
  have hyd : y ∈ S.drop lim := by
    have hymem : y ∈ S.take lim ++ S.drop lim := by
      rw [List.take_append_drop]
      exact hyS
    rcases List.mem_append.mp hymem with h' | h'
    · exact absurd (hout ▸ h') hyn
    · exact h'
  exact (List.pairwise_append.mp hsorted).2.2 x (hout ▸ hx) y hyd

/-! ## Monotonicity of the RRF contribution (claim C5) -/

lemma rrfTerm_mono (a b : Nat) (h : a ≤ b) : rrfTerm b ≤ rrfTerm a := by
  unfold rrfTerm
  have ha : (0 : ℚ) < 60 + (a : ℚ) := by positivity
  apply one_div_le_one_div_of_le ha
  have : (a : ℚ) ≤ (b : ℚ) := Nat.cast_le.mpr h
  linarith

lemma rrfTotal_mono (rs1 rs2 : List Nat) (h : List.Forall₂ (· ≤ ·) rs1 rs2) :
    rrfTotal rs2 ≤ rrfTotal rs1 := by
  induction h with
  | nil => exact le_rfl
  | cons hab _ ih =>
      unfold rrfTotal at ih ⊢
      simp only [List.map_cons, List.sum_cons]
      exact add_le_add (rrfTerm_mono _ _ hab) ih

/-! ## Provenance of the `type` field through fusion (claim C6) -/

lemma addLoop_typeInv (P : Option Chars → Prop) (source : Source) :
    ∀ (l : List Memory) (fused : Fmap) (r : Nat) (fused' : Fmap),
      addLoop source fused r l = .ok fused' →
      (∀ p ∈ fused, P (p : Nat × Fused).2.type) → (∀ m ∈ l, P m.type) →
      ∀ p ∈ fused', P (p : Nat × Fused).2.type
  | [], fused, r, fused', h, hf, _ => by
      simp [addLoop] at h
      exact h ▸ hf
  | m :: rest, fused, r, fused', h, hf, hl => by
      unfold addLoop _add_rrf at h
      cases hid : m.id with
      | none => simp [hid] at h
      | some mid =>
          simp only [hid] at h
          refine addLoop_typeInv P source rest _ (r + 1) fused' h ?_
            (fun m' hm' => hl m' (List.mem_cons_of_mem _ hm'))
          intro p hp
          rcases List.mem_map.mp hp with ⟨p₀, hp₀, hpe⟩
          have hsrc : p₀ ∈ fused ∨ p₀ = (mid, initFused mid m) := by
            by_cases hc : lookupId mid fused = none
            · have hp₀' := hp₀
              rw [if_pos hc] at hp₀'
              rcases List.mem_append.mp hp₀' with hin | hin
              · exact Or.inl hin
              · exact Or.inr (by simpa using hin)
            · have hp₀' := hp₀
              rw [if_neg hc] at hp₀'
              exact Or.inl hp₀'
          have hP₀ : P p₀.2.type := by
            rcases hsrc with hin | rfl
            · exact hf p₀ hin
            · exact hl m (List.mem_cons_self m rest)
          have htype : (applySource p₀.2 m r source).type = p₀.2.type := by
            cases source <;> simp [applySource]
          by_cases hc : p₀.1 = mid
          · simp only [← hpe, if_pos hc]
            simpa [htype] using hP₀
          · simp only [← hpe, if_neg hc]
            exact hP₀

lemma fusedMap_typeInv (P : Option Chars → Prop) (kw sem img : List Memory) (q : Chars)
    (f3 : Fmap) (hf : fusedMap kw sem img q = .ok f3)
    (hkw : ∀ m ∈ kw, P m.type) (hsem : ∀ m ∈ sem, P m.type) (himg : ∀ m ∈ img, P m.type) :
    ∀ p ∈ f3, P (p : Nat × Fused).2.type := by
  obtain ⟨f1, f2, h1, h2, h3⟩ := fusedMap_eq_ok kw sem img q f3 hf
  have hkw' : ∀ m ∈ keywordSortedM kw q, P m.type := by
    intro m' hm'
    unfold keywordSortedM at hm'
    rcases List.mem_map.mp hm' with ⟨p, hp, rfl⟩
    have hp' : p ∈ kw.map (fun memory =>
        (_calculate_keyword_score (textContent memory) (queryTerms q), memory)) :=
      (List.perm_insertionSort kwGe _).mem_iff.mp hp
    rcases List.mem_map.mp hp' with ⟨m, hm, rfl⟩
    exact hkw m hm
  have hsem' : ∀ m ∈ semanticSorted sem, P m.type := fun m hm =>
    hsem m ((List.perm_insertionSort simGe sem).mem_iff.mp hm)
  have himg' : ∀ m ∈ imageSorted img, P m.type := fun m hm =>
    himg m ((List.perm_insertionSort simGe img).mem_iff.mp hm)
  refine addLoop_typeInv P .image _ _ _ _ h3 ?_ himg'
  refine addLoop_typeInv P .semantic _ _ _ _ h2 ?_ hsem'
  refine addLoop_typeInv P .keyword _ _ _ _ h1 ?_ hkw'
  intro p hp
  cases hp

/-! ## Endpoint-level lemmas -/

lemma hybrid_empty (q : Chars) (lim : Nat) : _hybrid_rank_results [] [] [] q lim = .ok [] := by
  have hf : fusedMap [] [] [] q = .ok [] := rfl
  rw [hybrid_eq_take [] [] [] q lim [] hf]
  simp

lemma applyTypeFilter_nil (selected : Option (List Chars)) :
    applyTypeFilter selected [] = [] := by
  cases selected <;> rfl

lemma search_body_invalid (q st : Chars) (mt mts : Option Chars) (lim : Nat)
    (env : SearchEnv) (msg : Chars) (hp : parseTypeFilter mt mts = .error msg) :
    search_body q st mt mts lim env = .error (.httpExc 400 msg) := by
  simp only [search_body]
  rw [hp]

lemma search_memories_invalid (q st : Chars) (mt mts : Option Chars) (lim : Nat)
    (env : SearchEnv) (msg : Chars) (hp : parseTypeFilter mt mts = .error msg) :
    search_memories q st mt mts lim env = (retrievalPlan st,
      .error (.httpExc 500 ("Hybrid search failed: ".data ++ pyStrOfError (.httpExc 400 msg)))) := by
  unfold search_memories
  rw [search_body_invalid q st mt mts lim env msg hp]

lemma search_body_ok_inv (q st : Chars) (mt mts : Option Chars) (lim : Nat)
    (env : SearchEnv) (resp : SearchResponse)
    (h : search_body q st mt mts lim env = .ok resp) :
    ∃ selected final, parseTypeFilter mt mts = .ok selected ∧
      _hybrid_rank_results (applyTypeFilter selected (retrievedKeyword st env))
        (applyTypeFilter selected (retrievedSemantic st env))
        (applyTypeFilter selected (retrievedImage st env)) q lim = .ok final ∧
      resp = { memories := final
               total_found := final.length
               keyword_matches := (applyTypeFilter selected (retrievedKeyword st env)).length
               semantic_matches := (applyTypeFilter selected (retrievedSemantic st env)).length
               image_matches := (applyTypeFilter selected (retrievedImage st env)).length } := by
  simp only [search_body] at h
  split at h
  · cases h
  · rename_i selected hp
    split at h
    · cases h
    · rename_i final hr
      exact ⟨selected, final, hp, hr, (Except.ok.inj h).symm⟩

lemma search_body_ok_of (q st : Chars) (mt mts : Option Chars) (lim : Nat)
    (env : SearchEnv) (selected : Option (List Chars)) (final : List Fused)
    (hp : parseTypeFilter mt mts = .ok selected)
    (hr : _hybrid_rank_results (applyTypeFilter selected (retrievedKeyword st env))
        (applyTypeFilter selected (retrievedSemantic st env))
        (applyTypeFilter selected (retrievedImage st env)) q lim = .ok final) :
    search_body q st mt mts lim env =
      .ok { memories := final
            total_found := final.length
            keyword_matches := (applyTypeFilter selected (retrievedKeyword st env)).length
            semantic_matches := (applyTypeFilter selected (retrievedSemantic st env)).length
            image_matches := (applyTypeFilter selected (retrievedImage st env)).length } := by
  simp only [search_body]
  rw [hp]
  dsimp only
  rw [hr]

lemma search_memories_ok_of_body (q st : Chars) (mt mts : Option Chars) (lim : Nat)
    (env : SearchEnv) (resp : SearchResponse)
    (h : search_body q st mt mts lim env = .ok resp) :
    search_memories q st mt mts lim env = (retrievalPlan st, .ok resp) := by
  unfold search_memories
  rw [h]

lemma mem_filterByTypes (selected : List Chars) (l : List Memory) (m : Memory)
    (hm : m ∈ filterByTypes selected l) : m.type ∈ selected.map some := by
  unfold filterByTypes at hm
  have hp := List.of_mem_filter hm
  cases ht : m.type with
  | none => rw [ht] at hp; simp at hp
  | some t =>
      rw [ht] at hp
      simp at hp
      simp [List.mem_map]
      exact hp

lemma not_mem_filterByTypes (selected : List Chars) (l : List Memory) (m : Memory)
    (hm : m.type ∉ selected.map some) : m ∉ filterByTypes selected l :=
  fun hc => hm (mem_filterByTypes selected l m hc)

/-! ## Concrete fixtures for witnesses and counterexamples -/

/-- Query `"q"`. -/
def q0 : Chars := ['q']

/-- A minimal well-formed memory record with id 1. -/
def m1 : Memory := { id := some 1 }

/-- The single fused record produced by fusing `[m1]` with two empty
sources: keyword rank 1, hybrid score `1/61`. -/
def f1w : Fused :=
  { id := 1, type := none, processed_text := none, raw_text := none,
    similarity_score := none, image_path := none, filename := none,
    match_types := [.keyword], keyword_score := 0, semantic_score := 0, image_score := 0,
    hybrid_score := 1 / 61 }

lemma score_m1 : _calculate_keyword_score (textContent m1) (queryTerms q0) = 0 := by
  have hpc : pyCount [' '] ['q'] = 0 := by decide
  have hpi : pyIndex [' '] ['q'] = none := by decide
  norm_num [_calculate_keyword_score, kwStep, textContent, queryTerms, q0, m1, toLowerChars,
    pySplitWs, pySplitWsAux, List.dedup, hpc, hpi]

lemma hfm1 : fusedMap [m1] [] [] q0 = .ok [(1, f1w)] := by
  have hks : keywordSortedM [m1] q0 = [{ m1 with keyword_score := some 0 }] := by
    simp [keywordSortedM, List.insertionSort, List.orderedInsert, score_m1]
  unfold fusedMap
  rw [hks]
  simp only [semanticSorted, imageSorted, List.insertionSort]
  simp only [addLoop, _add_rrf, m1, lookupId, updateEntry, initFused, applySource]
  norm_num [f1w, rrf_k, m1]

lemma hres1 : _hybrid_rank_results [m1] [] [] q0 5 = .ok [f1w] := by
  rw [hybrid_eq_take [m1] [] [] q0 5 [(1, f1w)] hfm1]
  rfl

/-! ## Claim C1 -/

/-- C1: every record in the output of `_hybrid_rank_results` has
`hybrid_score` equal to the sum, over every (source, occurrence) pair in
which its id appears, of `1.0 / (60.0 + r)`, where `r` is the 1-based
rank of the occurrence in the source's list sorted best-first (keyword
by computed keyword score descending, semantic and image by
`similarity_score` descending). -/
theorem claim_C1 (kw sem img : List Memory) (q : Chars) (lim : Nat) (out : List Fused)
    (h : _hybrid_rank_results kw sem img q lim = .ok out) :
    ∀ m ∈ out, m.hybrid_score =
      rrfTotal (ranksOf (keywordSortedM kw q) m.id ++ ranksOf (semanticSorted sem) m.id ++
        ranksOf (imageSorted img) m.id) := by
  intro m hm
  obtain ⟨f3, hf, hout⟩ := hybrid_ok_inv kw sem img q lim out h
  have hlk := mem_out_lookup kw sem img q lim out f3 m hf hout hm
  have hh := lookup_hybrid kw sem img q f3 hf m.id
  rw [hlk] at hh
  unfold hybridOf at hh
  simp only [Option.map_some', Option.getD_some] at hh
  rw [hh]
  unfold rrfTotal
  simp [List.map_append, List.sum_append]
  ring

/-- Witness for C1 at the concrete input `[m1], [], []`. -/
theorem claim_C1_witness : f1w.hybrid_score =
    rrfTotal (ranksOf (keywordSortedM [m1] q0) f1w.id ++ ranksOf (semanticSorted []) f1w.id ++
      ranksOf (imageSorted []) f1w.id) :=
  claim_C1 [m1] [] [] q0 5 [f1w] hres1 f1w (List.mem_singleton.mpr rfl)

/-! ## Claim C3 -/

/-- C3: `_calculate_keyword_score` equals the closed form
`min(S / max(total_words / 100, 1), 10.0)` with `S` the sum over all
terms of `2.0 × exact count + 0.5 × near-word count + position bonus`
(an empty blob or empty term set giving exactly `0.0`), and the result
always lies in `[0, 10]`. -/
theorem claim_C3 (text : Chars) (query_terms : List Chars) :
    _calculate_keyword_score text query_terms = keywordScoreSpec text query_terms ∧
    0 ≤ _calculate_keyword_score text query_terms ∧
    _calculate_keyword_score text query_terms ≤ 10 := by
  refine ⟨calculate_keyword_score_eq_spec text query_terms, ?_, ?_⟩
  · rw [calculate_keyword_score_eq_spec text query_terms]
    exact keywordScoreSpec_nonneg text query_terms
  · rw [calculate_keyword_score_eq_spec text query_terms]
    exact keywordScoreSpec_le_ten text query_terms

/-! ## Claim C4 -/

/-- C4: the returned list is sorted by `hybrid_score` descending, its
length is `min(limit, number of distinct ids across the three inputs)`,
and every fused record that was cut off scores no higher than every
returned one (the top-`limit` records are returned). -/
theorem claim_C4 (kw sem img : List Memory) (q : Chars) (lim : Nat)
    (out : List Fused) (f3 : Fmap)
    (hf : fusedMap kw sem img q = .ok f3)
    (h : _hybrid_rank_results kw sem img q lim = .ok out) :
    out.Pairwise hybGe ∧
    out.length = min lim (distinctIdCount (kw ++ sem ++ img)) ∧
    ∀ x ∈ out, ∀ y ∈ f3.map Prod.snd, y ∉ out → y.hybrid_score ≤ x.hybrid_score := by
  obtain ⟨f3', hf', hout⟩ := hybrid_ok_inv kw sem img q lim out h
  have heq : f3' = f3 := by
    rw [hf] at hf'
    exact (Except.ok.inj hf').symm
  rw [heq] at hout
  exact ⟨out_pairwise lim out f3 hout, out_length kw sem img q lim out f3 hf hout,
    out_top lim out f3 hout⟩

/-- Witness for C4 at the concrete input `[m1], [], []`. -/
theorem claim_C4_witness :
    ([f1w] : List Fused).Pairwise hybGe ∧
    ([f1w] : List Fused).length = min 5 (distinctIdCount ([m1] ++ [] ++ [])) ∧
    ∀ x ∈ [f1w], ∀ y ∈ ([(1, f1w)] : Fmap).map Prod.snd, y ∉ [f1w] →
      y.hybrid_score ≤ x.hybrid_score :=
  claim_C4 [m1] [] [] q0 5 [f1w] [(1, f1w)] hfm1 hres1

/-! ## Claim C9 -/

/-- C9: fusing three empty lists yields `.ok []` without error, and on
any inputs whose records all carry ids (in particular when one or two of
the three lists are empty) fusion returns `.ok` and every returned
record has a strictly positive (valid) `hybrid_score`. -/
theorem claim_C9 :
    (∀ (q : Chars) (lim : Nat), _hybrid_rank_results [] [] [] q lim = .ok []) ∧
    (∀ (kw sem img : List Memory) (q : Chars) (lim : Nat),
      IdsPresent kw → IdsPresent sem → IdsPresent img →
      ∃ out, _hybrid_rank_results kw sem img q lim = .ok out ∧
        ∀ m ∈ out, 0 < m.hybrid_score) := by
  constructor
  · exact hybrid_empty
  · intro kw sem img q lim hkw hsem himg
    obtain ⟨f3, hf⟩ := fusedMap_ok_of_ids kw sem img q hkw hsem himg
    refine ⟨_, hybrid_eq_take kw sem img q lim f3 hf, ?_⟩
    intro m hm
    have hlk := mem_out_lookup kw sem img q lim _ f3 m hf rfl hm
    have hh := lookup_hybrid kw sem img q f3 hf m.id
    rw [hlk] at hh
    unfold hybridOf at hh
    simp only [Option.map_some', Option.getD_some] at hh
    have hsome : (lookupId m.id f3).isSome := by
      rw [hlk]
      rfl
    have hnonempty := lookup_isSome kw sem img q f3 hf m.id hsome
    rw [hh]
    have hk0 := rrfTotal_nonneg (ranksOf (keywordSortedM kw q) m.id)
    have hs0 := rrfTotal_nonneg (ranksOf (semanticSorted sem) m.id)
    have hi0 := rrfTotal_nonneg (ranksOf (imageSorted img) m.id)
    rcases hnonempty with h1 | h1 | h1 <;> have hp := rrfTotal_pos _ h1 <;> linarith

/-- Witness for C9: the all-empty case at `q0`, and the one-source case
at `[m1]`. -/
theorem claim_C9_witness :
    _hybrid_rank_results [] [] [] q0 5 = .ok [] ∧
    ∃ out, _hybrid_rank_results [m1] [] [] q0 5 = .ok out ∧
      ∀ m ∈ out, 0 < m.hybrid_score :=
  ⟨claim_C9.1 q0 5,
   claim_C9.2 [m1] [] [] q0 5
     (fun m hm => by rw [List.mem_singleton.mp hm]; simp [m1])
     (fun m hm => absurd hm (List.not_mem_nil m))
     (fun m hm => absurd hm (List.not_mem_nil m))⟩

/-! ## Claim C5 -/

/-- Record appearing at rank 1 in semantic and image. -/
def mA : Memory := { id := some 1, similarity_score := some (1 / 2) }

/-- Record appearing at rank 1 in keyword only. -/
def mB : Memory := { id := some 2 }

/-- The accumulator of `mB` after fusing `[mB], [mA], [mA]`. -/
def fB : Fused :=
  { id := 2, type := none, processed_text := none, raw_text := none,
    similarity_score := none, image_path := none, filename := none,
    match_types := [.keyword], keyword_score := 0, semantic_score := 0, image_score := 0,
    hybrid_score := 1 / 61 }

/-- The accumulator of `mA` after fusing `[mB], [mA], [mA]`. -/
def fA : Fused :=
  { id := 1, type := none, processed_text := none, raw_text := none,
    similarity_score := some (1 / 2), image_path := none, filename := none,
    match_types := [.semantic, .image], keyword_score := 0, semantic_score := 1 / 2,
    image_score := 1 / 2, hybrid_score := 2 / 61 }

lemma score_mB : _calculate_keyword_score (textContent mB) (queryTerms q0) = 0 := by
  have h : textContent mB = textContent m1 := rfl
  rw [h]
  exact score_m1

lemma hfmC5 : fusedMap [mB] [mA] [mA] q0 = .ok [(2, fB), (1, fA)] := by
  have hks : keywordSortedM [mB] q0 = [{ mB with keyword_score := some 0 }] := by
    simp [keywordSortedM, List.insertionSort, List.orderedInsert, score_mB]
  unfold fusedMap
  rw [hks]
  simp only [semanticSorted, imageSorted, List.insertionSort, List.orderedInsert]
  simp [addLoop, _add_rrf, mA, mB, lookupId, updateEntry, initFused, applySource,
    fA, fB, rrf_k]
  norm_num

/-- C5: the RRF total is monotone (pointwise better ranks give a score
at least as high), and concretely a record at rank 1 in two sources gets
hybrid score `2/61`, strictly above the `1/61` of a record at rank 1 in
a single source. -/
theorem claim_C5 (rs1 rs2 : List Nat) (h : List.Forall₂ (· ≤ ·) rs1 rs2) (f3 : Fmap)
    (hc : fusedMap [mB] [mA] [mA] q0 = .ok f3) :
    rrfTotal rs2 ≤ rrfTotal rs1 ∧
    hybridOf (lookupId 1 f3) = 2 / 61 ∧ hybridOf (lookupId 2 f3) = 1 / 61 ∧
    hybridOf (lookupId 2 f3) < hybridOf (lookupId 1 f3) := by
  have heq : f3 = [(2, fB), (1, fA)] := by
    rw [hfmC5] at hc
    exact (Except.ok.inj hc).symm
  subst heq
  refine ⟨rrfTotal_mono rs1 rs2 h, ?_, ?_, ?_⟩ <;>
    norm_num [hybridOf, lookupId, fA, fB]

/-- Witness for C5 at ranks `[1]` vs `[2]` and the concrete fused map. -/
theorem claim_C5_witness :
    rrfTotal [2] ≤ rrfTotal [1] ∧
    hybridOf (lookupId 1 [(2, fB), (1, fA)]) = 2 / 61 ∧
    hybridOf (lookupId 2 [(2, fB), (1, fA)]) = 1 / 61 ∧
    hybridOf (lookupId 2 [(2, fB), (1, fA)]) < hybridOf (lookupId 1 [(2, fB), (1, fA)]) :=
  claim_C5 [1] [2] (by norm_num) [(2, fB), (1, fA)] hfmC5

/-! ## Claim C10 -/

/-- First occurrence of id 1, semantic similarity `-1`. -/
def mN1 : Memory := { id := some 1, similarity_score := some (-1) }

/-- Second occurrence of id 1, semantic similarity `-2`. -/
def mN2 : Memory := { id := some 1, similarity_score := some (-2) }

/-- The accumulator of id 1 after fusing `[], [mN1, mN2], []`: two
separate RRF terms, `"semantic"` appended twice, but `semantic_score`
is `0.0` (the field starts at `0.0` and is only maxed upward), not the
maximum `-1` of the occurrence scores. -/
def fN : Fused :=
  { id := 1, type := none, processed_text := none, raw_text := none,
    similarity_score := some (-1), image_path := none, filename := none,
    match_types := [.semantic, .semantic], keyword_score := 0, semantic_score := 0,
    image_score := 0, hybrid_score := 1 / 61 + 1 / 62 }

lemma hsortN : semanticSorted [mN1, mN2] = [mN1, mN2] := by
  have hcmp : simGe mN1 mN2 := by norm_num [simGe, mN1, mN2]
  simp [semanticSorted, List.insertionSort, List.orderedInsert, hcmp]

lemma hfmC10 : fusedMap [] [mN1, mN2] [] q0 = .ok [(1, fN)] := by
  unfold fusedMap
  rw [show keywordSortedM [] q0 = [] from rfl]
  rw [hsortN]
  rw [show imageSorted [] = [] from rfl]
  simp [addLoop, _add_rrf, mN1, mN2, lookupId, updateEntry, initFused, applySource,
    fN, rrf_k]
  norm_num

lemma hresC10 : _hybrid_rank_results [] [mN1, mN2] [] q0 5 = .ok [fN] := by
  rw [hybrid_eq_take [] [mN1, mN2] [] q0 5 [(1, fN)] hfmC10]
  rfl

/-- C10 as stated is false: with two occurrences of id 1 in the semantic
list scoring `-1` and `-2`, the recorded `semantic_score` is `0.0`, not
the maximum `-1` of the occurrence scores. -/
theorem claim_C10_counterexample :
    fusedMap [] [mN1, mN2] [] q0 = .ok [(1, fN)] ∧
    simsOf (semanticSorted [mN1, mN2]) 1 = [-1, -2] ∧
    semScoreOf (lookupId 1 [(1, fN)]) = 0 ∧
    max (-1 : ℚ) (-2) ≠ 0 := by
  refine ⟨hfmC10, ?_, ?_, by norm_num⟩
  · rw [hsortN]
    simp [simsOf, occs, mN1, mN2]
  · norm_num [semScoreOf, lookupId, fN]

/-- C10 (amended): each occurrence adds its own `1/(60+r)` term and
appends the source name once, and each per-source score field is the
`max`-fold of the occurrence scores *starting from the field's `0.0`
initialisation* (so negative occurrence scores are clamped to `0.0`). -/
theorem claim_C10_amended (kw sem img : List Memory) (q : Chars) (lim : Nat)
    (out : List Fused) (h : _hybrid_rank_results kw sem img q lim = .ok out) :
    ∀ m ∈ out,
      m.hybrid_score =
        rrfTotal (ranksOf (keywordSortedM kw q) m.id ++ ranksOf (semanticSorted sem) m.id ++
          ranksOf (imageSorted img) m.id) ∧
      m.match_types.count .keyword = (ranksOf (keywordSortedM kw q) m.id).length ∧
      m.match_types.count .semantic = (ranksOf (semanticSorted sem) m.id).length ∧
      m.match_types.count .image = (ranksOf (imageSorted img) m.id).length ∧
      m.keyword_score = (kwScoresOf (keywordSortedM kw q) m.id).foldl max 0 ∧
      m.semantic_score = (simsOf (semanticSorted sem) m.id).foldl max 0 ∧
      m.image_score = (simsOf (imageSorted img) m.id).foldl max 0 := by
  intro m hm
  obtain ⟨f3, hf, hout⟩ := hybrid_ok_inv kw sem img q lim out h
  have hlk := mem_out_lookup kw sem img q lim out f3 m hf hout hm
  have hhyb := lookup_hybrid kw sem img q f3 hf m.id
  have hmt := lookup_matchTypes kw sem img q f3 hf m.id
  have hkw := lookup_kwScore kw sem img q f3 hf m.id
  have hsem := lookup_semScore kw sem img q f3 hf m.id
  have himg := lookup_imgScore kw sem img q f3 hf m.id
  rw [hlk] at hhyb hmt hkw hsem himg
  unfold hybridOf at hhyb
  unfold matchTypesOf at hmt
  unfold kwScoreOf at hkw
  unfold semScoreOf at hsem
  unfold imgScoreOf at himg
  simp only [Option.map_some', Option.getD_some] at hhyb hmt hkw hsem himg
  refine ⟨?_, ?_, ?_, ?_, hkw, hsem, himg⟩
  · rw [hhyb]
    unfold rrfTotal
    simp [List.map_append, List.sum_append]
    ring
  · rw [hmt]
    simp [List.count_append, List.count_replicate]
  · rw [hmt]
    simp [List.count_append, List.count_replicate]
  · rw [hmt]
    simp [List.count_append, List.count_replicate]

/-- Witness for the amended C10 at the duplicate-occurrence input. -/
theorem claim_C10_amended_witness :
    fN.hybrid_score =
      rrfTotal (ranksOf (keywordSortedM [] q0) fN.id ++
        ranksOf (semanticSorted [mN1, mN2]) fN.id ++ ranksOf (imageSorted []) fN.id) ∧
    fN.match_types.count .keyword = (ranksOf (keywordSortedM [] q0) fN.id).length ∧
    fN.match_types.count .semantic = (ranksOf (semanticSorted [mN1, mN2]) fN.id).length ∧
    fN.match_types.count .image = (ranksOf (imageSorted []) fN.id).length ∧
    fN.keyword_score = (kwScoresOf (keywordSortedM [] q0) fN.id).foldl max 0 ∧
    fN.semantic_score = (simsOf (semanticSorted [mN1, mN2]) fN.id).foldl max 0 ∧
    fN.image_score = (simsOf (imageSorted []) fN.id).foldl max 0 :=
  claim_C10_amended [] [mN1, mN2] [] q0 5 [fN] hresC10 fN (List.mem_singleton.mpr rfl)

/-! ## Claim C7 -/

/-- A malformed candidate record without an identifier. -/
def mNoId : Memory := { type := some "text".data }

/-- C7 as stated is false: a candidate lacking an id is not skipped —
fusion raises `KeyError('id')` and aborts, returning no results even
though the well-formed record `m1` is present. -/
theorem claim_C7_counterexample :
    _hybrid_rank_results [mNoId, m1] [] [] q0 5 = .error "id".data ∧
    mNoId.id = none ∧ m1.id = some 1 := by
  refine ⟨?_, rfl, rfl⟩
  unfold _hybrid_rank_results
  rw [fusedMap_error_of_missing [mNoId, m1] [] [] q0
    ⟨mNoId, by simp, rfl⟩]

/-- C7 (amended): if any candidate record in any of the three lists
lacks an identifier, `_hybrid_rank_results` raises `KeyError('id')`
(aborting the whole query) instead of skipping the record. -/
theorem claim_C7_amended (kw sem img : List Memory) (q : Chars) (lim : Nat)
    (h : ∃ m ∈ kw ++ sem ++ img, m.id = none) :
    _hybrid_rank_results kw sem img q lim = .error "id".data := by
  unfold _hybrid_rank_results
  rw [fusedMap_error_of_missing kw sem img q h]

/-- Witness for the amended C7. -/
theorem claim_C7_amended_witness :
    _hybrid_rank_results [] [] [mNoId] q0 5 = .error "id".data :=
  claim_C7_amended [] [] [mNoId] q0 5 ⟨mNoId, by simp, rfl⟩

/-! ## Claim C2 -/

/-- An environment whose sources return nothing. -/
def env0 : SearchEnv := {}

/-- C2 as stated is false: with `memory_type = "z"` the hybrid request
executes all three candidate retrievals (the trace is the full plan,
not empty) and the rejection surfaces with status 500 — the endpoint's
catch-all turns the `HTTPException(400)` into
`HTTPException(500, "Hybrid search failed: ...")`. -/
theorem claim_C2_counterexample :
    search_memories q0 "hybrid".data (some "z".data) none 10 env0 =
      ([.keyword, .semantic, .image],
        .error (.httpExc 500 ("Hybrid search failed: ".data ++
          pyStrOfError (.httpExc 400 "Invalid memory_type".data)))) ∧
    ¬ isClientError 500 := by
  constructor
  · have hp : parseTypeFilter (some "z".data) none = .error "Invalid memory_type".data := by
      decide
    rw [search_memories_invalid q0 "hybrid".data (some "z".data) none 10 env0 _ hp]
    decide
  · decide

/-- C2 (amended): in `search_memories` an invalid type filter is
rejected only *after* the retrievals selected by `search_type` have
executed, and the surfaced status is 500 (the 400 is swallowed by the
endpoint's catch-all); an unrecognized `search_type` is not rejected at
all — no retrieval runs and an empty success response is returned. -/
theorem claim_C2_amended (q st : Chars) (mt mts : Option Chars) (lim : Nat) (env : SearchEnv) :
    (∀ msg, parseTypeFilter mt mts = .error msg →
      search_memories q st mt mts lim env =
        (retrievalPlan st,
          .error (.httpExc 500 ("Hybrid search failed: ".data ++
            pyStrOfError (.httpExc 400 msg))))) ∧
    (∀ selected, st ∉ ["hybrid".data, "keyword".data, "semantic".data, "image".data] →
      parseTypeFilter mt mts = .ok selected →
      search_memories q st mt mts lim env =
        ([], .ok { memories := [], total_found := 0, keyword_matches := 0,
                   semantic_matches := 0, image_matches := 0 })) := by
  constructor
  · intro msg hp
    exact search_memories_invalid q st mt mts lim env msg hp
  · intro selected hst hp
    have h1 : ¬(st = "hybrid".data ∨ st = "keyword".data) := by
      rintro (h | h) <;> exact hst (by simp [h])
    have h2 : ¬(st = "hybrid".data ∨ st = "semantic".data) := by
      rintro (h | h) <;> exact hst (by simp [h])
    have h3 : ¬(st = "hybrid".data ∨ st = "image".data) := by
      rintro (h | h) <;> exact hst (by simp [h])
    have hkr : retrievedKeyword st env = [] := by
      unfold retrievedKeyword
      rw [if_neg h1]
    have hsr : retrievedSemantic st env = [] := by
      unfold retrievedSemantic
      rw [if_neg h2]
    have hir : retrievedImage st env = [] := by
      unfold retrievedImage
      rw [if_neg h3]
    have hplan : retrievalPlan st = [] := by
      unfold retrievalPlan
      rw [if_neg h1, if_neg h2, if_neg h3]
      rfl
    have hr : _hybrid_rank_results (applyTypeFilter selected (retrievedKeyword st env))
        (applyTypeFilter selected (retrievedSemantic st env))
        (applyTypeFilter selected (retrievedImage st env)) q lim = .ok [] := by
      rw [hkr, hsr, hir, applyTypeFilter_nil]
      exact hybrid_empty q lim
    have hb := search_body_ok_of q st mt mts lim env selected [] hp hr
    rw [hkr, hsr, hir, applyTypeFilter_nil] at hb
    have hsm := search_memories_ok_of_body q st mt mts lim env _ hb
    rw [hsm, hplan]
    rfl

/-- Witness for the amended C2: the invalid-filter case and the
unrecognized-search-type case at concrete inputs. -/
theorem claim_C2_amended_witness :
    search_memories q0 "hybrid".data (some "z".data) none 10 env0 =
      (retrievalPlan "hybrid".data,
        .error (.httpExc 500 ("Hybrid search failed: ".data ++
          pyStrOfError (.httpExc 400 "Invalid memory_type".data)))) ∧
    search_memories q0 "z".data none none 10 env0 =
      ([], .ok { memories := [], total_found := 0, keyword_matches := 0,
                 semantic_matches := 0, image_matches := 0 }) :=
  ⟨(claim_C2_amended q0 "hybrid".data (some "z".data) none 10 env0).1 _ (by decide),
   (claim_C2_amended q0 "z".data none none 10 env0).2 none (by decide) rfl⟩

/-! ## Claims C6 and C8: fixtures -/

/-- Keyword candidate of type `image` (to be filtered out). -/
def mX : Memory := { id := some 9, type := some "image".data }

/-- Keyword candidate of type `text` (kept by the filter). -/
def mY : Memory := { id := some 2, type := some "text".data }

/-- The fused record of `mY`: keyword rank 1, hybrid `1/61`. -/
def fY : Fused :=
  { id := 2, type := some "text".data, processed_text := none, raw_text := none,
    similarity_score := none, image_path := none, filename := none,
    match_types := [.keyword], keyword_score := 0, semantic_score := 0, image_score := 0,
    hybrid_score := 1 / 61 }

def envC6 : SearchEnv := { keywordRes := [mX, mY] }

def respC6 : SearchResponse :=
  { memories := [fY], total_found := 1, keyword_matches := 1, semantic_matches := 0,
    image_matches := 0 }

lemma hfilterXY : filterByTypes ["text".data] [mX, mY] = [mY] := by decide

lemma score_mY : _calculate_keyword_score (textContent mY) (queryTerms q0) = 0 := by
  have h : textContent mY = textContent m1 := rfl
  rw [h]
  exact score_m1

lemma hfmY : fusedMap [mY] [] [] q0 = .ok [(2, fY)] := by
  have hks : keywordSortedM [mY] q0 = [{ mY with keyword_score := some 0 }] := by
    simp [keywordSortedM, List.insertionSort, List.orderedInsert, score_mY]
  unfold fusedMap
  rw [hks]
  simp only [semanticSorted, imageSorted, List.insertionSort]
  simp only [addLoop, _add_rrf, mY, lookupId, updateEntry, initFused, applySource]
  norm_num [fY, rrf_k, mY]

lemma hresY : _hybrid_rank_results [mY] [] [] q0 10 = .ok [fY] := by
  rw [hybrid_eq_take [mY] [] [] q0 10 [(2, fY)] hfmY]
  rfl

lemma hbodyC6 :
    search_body q0 "hybrid".data (some "text".data) none 10 envC6 = .ok respC6 := by
  have hp : parseTypeFilter (some "text".data) none = .ok (some ["text".data]) := by decide
  have hretk : retrievedKeyword "hybrid".data envC6 = [mX, mY] := by
    simp [retrievedKeyword, envC6]
  have hrets : retrievedSemantic "hybrid".data envC6 = [] := by
    simp [retrievedSemantic, envC6]
  have hreti : retrievedImage "hybrid".data envC6 = [] := by
    simp [retrievedImage, envC6]
  have happ : applyTypeFilter (some ["text".data]) [mX, mY] = [mY] := hfilterXY
  have hr : _hybrid_rank_results
      (applyTypeFilter (some ["text".data]) (retrievedKeyword "hybrid".data envC6))
      (applyTypeFilter (some ["text".data]) (retrievedSemantic "hybrid".data envC6))
      (applyTypeFilter (some ["text".data]) (retrievedImage "hybrid".data envC6)) q0 10 =
      .ok [fY] := by
    rw [hretk, hrets, hreti, happ, applyTypeFilter_nil]
    exact hresY
  have hb := search_body_ok_of q0 "hybrid".data (some "text".data) none 10 envC6
    (some ["text".data]) [fY] hp hr
  rw [hretk, hrets, hreti, happ, applyTypeFilter_nil] at hb
  exact hb

/-! ## Claim C6 -/

/-- C6: a record whose type is not selected is excluded by the
type filter, so it never enters fusion (it occupies no rank slot):
every record a filtered search returns has an allowed type, and
concretely filtering `[X(type=image), Y(type=text)]` by `{text}` leaves
`[Y]`, whose fusion gives Y keyword rank 1 and hybrid score `1/61`. -/
theorem claim_C6 (s : List Chars) (l : List Memory) (m : Memory) (q st : Chars)
    (mt mts : Option Chars) (lim : Nat) (env : SearchEnv) (resp : SearchResponse) :
    (m.type ∉ s.map some → m ∉ filterByTypes s l) ∧
    (parseTypeFilter mt mts = .ok (some s) → search_body q st mt mts lim env = .ok resp →
      ∀ mo ∈ resp.memories, mo.type ∈ s.map some) ∧
    (filterByTypes ["text".data] [mX, mY] = [mY] ∧
      _hybrid_rank_results (filterByTypes ["text".data] [mX, mY]) [] [] q0 10 = .ok [fY] ∧
      ranksOf (keywordSortedM (filterByTypes ["text".data] [mX, mY]) q0) fY.id = [1] ∧
      fY.hybrid_score = 1 / 61) := by
  refine ⟨not_mem_filterByTypes s l m, ?_, hfilterXY, ?_, ?_, by norm_num [fY]⟩
  · intro hp hbody mo hmo
    obtain ⟨selected, final, hp', hr, hresp⟩ := search_body_ok_inv q st mt mts lim env resp hbody
    rw [hp] at hp'
    have hsel : some s = selected := Except.ok.inj hp'
    rw [hresp] at hmo
    obtain ⟨f3, hfm, hout⟩ := hybrid_ok_inv _ _ _ q lim final hr
    have hm1 : mo ∈ List.insertionSort hybGe (f3.map Prod.snd) :=
      List.take_subset _ _ (hout ▸ hmo)
    have hm2 : mo ∈ f3.map Prod.snd := (List.perm_insertionSort hybGe _).subset hm1
    rcases List.mem_map.mp hm2 with ⟨p, hp2, rfl⟩
    refine fusedMap_typeInv (fun t => t ∈ s.map some) _ _ _ q f3 hfm ?_ ?_ ?_ p hp2
    · intro m' hm'
      rw [← hsel] at hm'
      exact mem_filterByTypes s _ m' hm'
    · intro m' hm'
      rw [← hsel] at hm'
      exact mem_filterByTypes s _ m' hm'
    · intro m' hm'
      rw [← hsel] at hm'
      exact mem_filterByTypes s _ m' hm'
  · rw [hfilterXY]
    exact hresY
  · rw [hfilterXY]
    have hks : keywordSortedM [mY] q0 = [{ mY with keyword_score := some 0 }] := by
      simp [keywordSortedM, List.insertionSort, List.orderedInsert, score_mY]
    rw [hks]
    simp [ranksOf, occs, mY, fY]

/-- Witness for C6 at the concrete filter `{text}` and list `[mX, mY]`. -/
theorem claim_C6_witness :
    mX ∉ filterByTypes ["text".data] [mX, mY] ∧
    fY.type ∈ (["text".data]).map some ∧
    filterByTypes ["text".data] [mX, mY] = [mY] ∧
    _hybrid_rank_results (filterByTypes ["text".data] [mX, mY]) [] [] q0 10 = .ok [fY] ∧
    ranksOf (keywordSortedM (filterByTypes ["text".data] [mX, mY]) q0) fY.id = [1] ∧
    fY.hybrid_score = 1 / 61 :=
  have hc6 := claim_C6 ["text".data] [mX, mY] mX q0 "hybrid".data (some "text".data) none
    10 envC6 respC6
  ⟨hc6.1 (by decide), hc6.2.1 (by decide) hbodyC6 fY (by simp [respC6]), hc6.2.2⟩

/-! ## Claim C8 -/

/-- C8 as stated is false: with a `text` filter active, the keyword
source returned two records but the breakdown reports `1` — the count of
the list after type filtering, not the raw count returned by the
source. -/
theorem claim_C8_counterexample :
    search_body q0 "hybrid".data (some "text".data) none 10 envC6 = .ok respC6 ∧
    respC6.keyword_matches = 1 ∧ envC6.keywordRes.length = 2 ∧ (1 : Nat) ≠ 2 :=
  ⟨hbodyC6, rfl, rfl, by decide⟩

/-- C8 (amended): the breakdown reports, per source, the length of the
candidate list as passed into fusion — i.e. after the optional type
filter — which equals the raw source count exactly when no type filter
is selected. -/
theorem claim_C8_amended (q st : Chars) (mt mts : Option Chars) (lim : Nat) (env : SearchEnv)
    (resp : SearchResponse) (h : search_body q st mt mts lim env = .ok resp) :
    ∃ selected, parseTypeFilter mt mts = .ok selected ∧
      resp.keyword_matches = (applyTypeFilter selected (retrievedKeyword st env)).length ∧
      resp.semantic_matches = (applyTypeFilter selected (retrievedSemantic st env)).length ∧
      resp.image_matches = (applyTypeFilter selected (retrievedImage st env)).length ∧
      (selected = none → resp.keyword_matches = (retrievedKeyword st env).length ∧
        resp.semantic_matches = (retrievedSemantic st env).length ∧
        resp.image_matches = (retrievedImage st env).length) := by
  obtain ⟨selected, final, hp, hr, hresp⟩ := search_body_ok_inv q st mt mts lim env resp h
  subst hresp
  exact ⟨selected, hp, rfl, rfl, rfl, fun hsel => by
    subst hsel
    exact ⟨rfl, rfl, rfl⟩⟩

/-- Witness for the amended C8 at the concrete filtered search. -/
theorem claim_C8_amended_witness :
    ∃ selected, parseTypeFilter (some "text".data) none = .ok selected ∧
      respC6.keyword_matches =
        (applyTypeFilter selected (retrievedKeyword "hybrid".data envC6)).length ∧
      respC6.semantic_matches =
        (applyTypeFilter selected (retrievedSemantic "hybrid".data envC6)).length ∧
      respC6.image_matches =
        (applyTypeFilter selected (retrievedImage "hybrid".data envC6)).length ∧
      (selected = none →
        respC6.keyword_matches = (retrievedKeyword "hybrid".data envC6).length ∧
        respC6.semantic_matches = (retrievedSemantic "hybrid".data envC6).length ∧
        respC6.image_matches = (retrievedImage "hybrid".data envC6).length) :=
  claim_C8_amended q0 "hybrid".data (some "text".data) none 10 envC6 respC6 hbodyC6

end MemFusion
